import Mathlib

/-!
Verification development for the donation-classification pipeline in
`src/utils/donationProcessor.ts` (class `DonationProcessor`).

Modeling conventions, fixed once for the whole file:

* JavaScript numbers are modeled by `JSNum`: exact rationals extended with the
  three IEEE special values `NaN`, `+Infinity`, `-Infinity`.  Binary-float
  rounding of arithmetic is deliberately not modeled: finite values stay exact
  rationals (the specification demands exact decimal semantics for amounts).
* JavaScript `Date` objects are modeled by `JSDate`: either a valid timestamp
  in integral milliseconds since the Unix epoch, or the Invalid Date value.
  The runtime environment is assumed to use the UTC timezone, so local-time
  `Date` construction coincides with UTC.
* A spreadsheet cell (as delivered by the decoding layer) is `Cell`: absent,
  numeric, or text.
* The generic JavaScript string-to-date fallback parser (`new Date(string)`
  for strings that match none of the three explicit patterns) is
  implementation-defined in JavaScript; it is taken as an explicit function
  parameter `fallback : String → Option Int` (its Invalid-Date outcome is
  already folded to `none` by the source's `isNaN(parsed.getTime())` check).
* `Number.prototype.toString` is modeled by `JSNum.toStr`, which renders a
  finite rational via Lean's exact rational notation.  Like the JavaScript
  rendering it is an injective function of the numeric value and never
  contains the `_` character, which is all the duplicate-fingerprint logic
  observes about it.
* A thrown JavaScript exception is modeled by `Except.error msg`.
-/

namespace Igrejas

/-- JavaScript numbers: exact rationals plus `NaN`, `Infinity`, `-Infinity`. -/
inductive JSNum where
  | nan
  | inf
  | ninf
  | fin (q : ℚ)
deriving DecidableEq, Repr

/-- JavaScript addition on `JSNum` (exact on finite values). -/
def JSNum.add : JSNum → JSNum → JSNum
  | nan, _ => nan
  | _, nan => nan
  | inf, ninf => nan
  | ninf, inf => nan
  | inf, _ => inf
  | _, inf => inf
  | ninf, _ => ninf
  | _, ninf => ninf
  | fin a, fin b => fin (a + b)

/-- JavaScript unary negation on `JSNum`. -/
def JSNum.neg : JSNum → JSNum
  | nan => nan
  | inf => ninf
  | ninf => inf
  | fin a => fin (-a)

/-- JavaScript subtraction, which is addition of the negation. -/
def JSNum.sub (a b : JSNum) : JSNum := a.add b.neg

/-- JavaScript `Math.abs`. -/
def JSNum.abs : JSNum → JSNum
  | nan => nan
  | inf => inf
  | ninf => inf
  | fin a => fin |a|

/-- JavaScript multiplication on `JSNum` (exact on finite values). -/
def JSNum.mul : JSNum → JSNum → JSNum
  | nan, _ => nan
  | _, nan => nan
  | inf, inf => inf
  | inf, ninf => ninf
  | ninf, inf => ninf
  | ninf, ninf => inf
  | inf, fin b => if 0 < b then inf else if b < 0 then ninf else nan
  | fin a, inf => if 0 < a then inf else if a < 0 then ninf else nan
  | ninf, fin b => if 0 < b then ninf else if b < 0 then inf else nan
  | fin a, ninf => if 0 < a then ninf else if a < 0 then inf else nan
  | fin a, fin b => fin (a * b)

/-- JavaScript `x < 0` comparison (false on `NaN`), used for `isNegative`
and for the sort comparator's sign test. -/
def JSNum.ltZero : JSNum → Bool
  | nan => false
  | inf => false
  | ninf => true
  | fin a => decide (a < 0)

/-- Truncation of a rational toward zero, as in ECMAScript `ToIntegerOrInfinity`. -/
def ratTrunc (q : ℚ) : Int := if 0 ≤ q then ⌊q⌋ else ⌈q⌉

/-- JavaScript `Math.round`: `⌊x + 1/2⌋` (round half toward +∞) on finite values. -/
def JSNum.round : JSNum → JSNum
  | nan => nan
  | inf => inf
  | ninf => ninf
  | fin a => fin ((⌊a + 1/2⌋ : ℤ) : ℚ)

/-- JavaScript `%` (truncated remainder, sign of the dividend; `NaN` on an
infinite dividend or zero divisor; a finite dividend is returned unchanged
modulo an infinite divisor). -/
def JSNum.mod : JSNum → JSNum → JSNum
  | nan, _ => nan
  | _, nan => nan
  | inf, _ => nan
  | ninf, _ => nan
  | fin a, inf => fin a
  | fin a, ninf => fin a
  | fin a, fin b => if b = 0 then nan else fin (a - b * ((ratTrunc (a / b) : ℤ) : ℚ))

/-- JavaScript `Date`: a valid integral millisecond timestamp or Invalid Date. -/
inductive JSDate where
  | invalid
  | valid (ms : Int)
deriving DecidableEq, Repr

/-- ECMAScript `TimeClip`: timestamps beyond ±8.64e15 ms become Invalid Date,
otherwise the time value is truncated toward zero to an integer. -/
def timeClip (t : ℚ) : JSDate :=
  if |t| ≤ 8640000000000000 then JSDate.valid (ratTrunc t) else JSDate.invalid

/-- Days from the civil epoch 1970-01-01 for a proleptic-Gregorian date
(Howard Hinnant's `days_from_civil` algorithm); `m` is 1-based. -/
def daysFromCivil (y m d : Int) : Int :=
  let y' := if m ≤ 2 then y - 1 else y
  let era := Int.fdiv y' 400
  let yoe := y' - era * 400
  let mp := if 2 < m then m - 3 else m + 9
  let doy := Int.fdiv (153 * mp + 2) 5 + d - 1
  let doe := yoe * 365 + Int.fdiv yoe 4 - Int.fdiv yoe 100 + doy
  era * 146097 + doe - 719468

/-- Civil proleptic-Gregorian date `(year, month, day)` from days since
1970-01-01 (Howard Hinnant's `civil_from_days` algorithm). -/
def civilFromDays (z0 : Int) : Int × Int × Int :=
  let z := z0 + 719468
  let era := Int.fdiv z 146097
  let doe := z - era * 146097
  let yoe := Int.fdiv (doe - Int.fdiv doe 1460 + Int.fdiv doe 36524 - Int.fdiv doe 146096) 365
  let y := yoe + era * 400
  let doy := doe - (365 * yoe + Int.fdiv yoe 4 - Int.fdiv yoe 100)
  let mp := Int.fdiv (5 * doy + 2) 153
  let d := doy - Int.fdiv (153 * mp + 2) 5 + 1
  let m := if mp < 10 then mp + 3 else mp - 9
  (if m ≤ 2 then y + 1 else y, m, d)

/-- JavaScript `new Date(year, month0, day)` (in a UTC environment): years
0–99 map to 1900–1999, out-of-range month and day components carry over,
and the result is clipped to the representable time range. -/
def jsMakeDate (y m0 d : Int) : JSDate :=
  let yy := if 0 ≤ y ∧ y ≤ 99 then y + 1900 else y
  let ym := yy * 12 + m0
  timeClip (((daysFromCivil (Int.fdiv ym 12) (Int.emod ym 12 + 1) 1 + (d - 1)) * 86400000 : Int) : ℚ)

/-- Left-pad the decimal rendering of `n` with zeros to width `w`. -/
def padNat (w : Nat) (n : Nat) : String :=
  let s := toString n
  if w ≤ s.length then s else String.mk (List.replicate (w - s.length) '0') ++ s

/-- Year component of `toISOString`: four digits for years 0–9999, otherwise
the expanded signed six-digit form. -/
def isoYear (y : Int) : String :=
  if 0 ≤ y ∧ y ≤ 9999 then padNat 4 y.toNat
  else if y < 0 then "-" ++ padNat 6 (-y).toNat
  else "+" ++ padNat 6 y.toNat

/-- Date part of `toISOString` (the text before `T`) for a day number. -/
def isoDayOfDays (z : Int) : String :=
  let c := civilFromDays z
  isoYear c.1 ++ "-" ++ padNat 2 c.2.1.toNat ++ "-" ++ padNat 2 c.2.2.toNat

/-- Spreadsheet cell as delivered by the decoding layer. -/
inductive Cell where
  | empty
  | num (v : JSNum)
  | str (s : String)
deriving DecidableEq, Repr

/-- JavaScript `Number.prototype.toString`, at the fidelity the pipeline
observes (injective in the value, `_`-free); finite rationals use Lean's
exact rendering. -/
def JSNum.toStr : JSNum → String
  | nan => "NaN"
  | inf => "Infinity"
  | ninf => "-Infinity"
  | fin q => toString q

/-- JavaScript `String(x)` on a cell (an absent cell stringifies to
`"undefined"`). -/
def cellToString : Cell → String
  | Cell.empty => "undefined"
  | Cell.num v => v.toStr
  | Cell.str s => s

/-- JavaScript `String(x || '')` on a cell: falsy cells (absent, `0`, `NaN`,
the empty string) become the empty string. -/
def cellOrEmptyStr : Cell → String
  | Cell.empty => ""
  | Cell.num JSNum.nan => ""
  | Cell.num (JSNum.fin q) => if q = 0 then "" else (JSNum.fin q).toStr
  | Cell.num v => v.toStr
  | Cell.str s => s

/-- Test whether `pat` occurs at the start of `cs`. -/
def startsWithChars : List Char → List Char → Bool
  | [], _ => true
  | _ :: _, [] => false
  | p :: ps, c :: cs => p == c && startsWithChars ps cs

/-- Substring containment on character lists, modeling
`String.prototype.includes`. -/
def containsSubChars (pat : List Char) : List Char → Bool
  | [] => startsWithChars pat []
  | c :: cs => startsWithChars pat (c :: cs) || containsSubChars pat cs

/-- Value of a list of decimal digit characters (the effect of `parseInt`
on an all-digit string). -/
def digitsVal (l : List Char) : Nat :=
  l.foldl (fun a c => 10 * a + (c.toNat - 48)) 0

/-- Second stage of `parseFloat` after the optional sign: the `Infinity`
literal, or a decimal significand with an optional exponent; the longest
valid numeric prefix is consumed and trailing characters are ignored;
`NaN` if no digits are found. -/
def parseFloatBody (neg : Bool) (cs : List Char) : JSNum :=
  if startsWithChars ("Infinity".toList) cs then (if neg then JSNum.ninf else JSNum.inf)
  else
    let ip := cs.takeWhile Char.isDigit
    let r1 := cs.dropWhile Char.isDigit
    let fp := match r1 with
      | '.' :: r => r.takeWhile Char.isDigit
      | _ => []
    let r2 := match r1 with
      | '.' :: r => r.dropWhile Char.isDigit
      | _ => r1
    if ip.isEmpty && fp.isEmpty then JSNum.nan
    else
      let mag : ℚ := (digitsVal ip : ℚ) + (digitsVal fp : ℚ) / (10 : ℚ) ^ fp.length
      let e : Int := match r2 with
        | c :: r3 =>
          if c == 'e' || c == 'E' then
            match r3 with
            | '-' :: r4 =>
              let ds := r4.takeWhile Char.isDigit
              if ds.isEmpty then 0 else -(digitsVal ds : Int)
            | '+' :: r4 =>
              let ds := r4.takeWhile Char.isDigit
              if ds.isEmpty then 0 else (digitsVal ds : Int)
            | r4 =>
              let ds := r4.takeWhile Char.isDigit
              if ds.isEmpty then 0 else (digitsVal ds : Int)
          else 0
        | [] => 0
      let v : ℚ := mag * (10 : ℚ) ^ e
      JSNum.fin (if neg then -v else v)

/-- JavaScript `parseFloat` on a character list: leading whitespace is
skipped, then an optional sign, then the numeric body. -/
def parseFloatChars (cs0 : List Char) : JSNum :=
  match cs0.dropWhile Char.isWhitespace with
  | '-' :: r => parseFloatBody true r
  | '+' :: r => parseFloatBody false r
  | r => parseFloatBody false r

/-- Replace the first `,` by `.`, modeling the single-replacement call
`.replace(',', '.')`. -/
def replaceFirstComma : List Char → List Char
  | [] => []
  | c :: cs => if c == ',' then '.' :: cs else c :: replaceFirstComma cs

/-- Embedding of `DonationProcessor.parseAmount`.  A numeric cell is
returned verbatim; otherwise the cell is stringified (falsy values to the
empty string) and trimmed, the empty string fails, `R`/`$`/whitespace
characters and every `.` are removed, the first `,` becomes a decimal
point, a `-` or `(` anywhere marks the value negative, the characters
`-` `(` `)` are stripped, the rest goes through `parseFloat`, and the
result is negated when the negative marker was seen. -/
def parseAmount : Cell → JSNum
  | Cell.num v => v
  | c =>
    let str := (cellOrEmptyStr c).trim
    if str = "" then JSNum.nan
    else
      let n1 := str.toList.filter (fun ch => !(ch == 'R' || ch == '$' || ch.isWhitespace))
      let n2 := n1.filter (fun ch => ch != '.')
      let n3 := replaceFirstComma n2
      let isNegative := n3.contains '-' || n3.contains '('
      let n4 := n3.filter (fun ch => !(ch == '-' || ch == '(' || ch == ')'))
      let amount := parseFloatChars n4
      if isNegative then amount.neg else amount

/-- Anchored match of the regular expression
`^(\d\x7b1,2\x7d)sep(\d\x7b1,2\x7d)sep(\d\x7b4\x7d)$` where `sep` is a fixed
non-digit separator character, returning the three captured integers.  The
greedy groups are equivalent to maximal digit runs here because each group
is followed by a non-digit: if a maximal run is longer than the group
allows, every backtracking choice leaves a digit where the separator or the
end of the string is required, so the whole match fails. -/
def matchD2D2Y4 (sep : Char) (cs : List Char) : Option (Nat × Nat × Nat) :=
  let a := cs.takeWhile Char.isDigit
  let r1 := cs.dropWhile Char.isDigit
  if a.length < 1 || 2 < a.length then none else
  match r1 with
  | c1 :: r2 =>
    if c1 != sep then none else
    let b := r2.takeWhile Char.isDigit
    let r3 := r2.dropWhile Char.isDigit
    if b.length < 1 || 2 < b.length then none else
    match r3 with
    | c2 :: r4 =>
      if c2 != sep then none else
      let d := r4.takeWhile Char.isDigit
      let r5 := r4.dropWhile Char.isDigit
      if d.length == 4 && r5.isEmpty then some (digitsVal a, digitsVal b, digitsVal d) else none
    | [] => none
  | [] => none

/-- Anchored match of `^(\d\x7b4\x7d)-(\d\x7b1,2\x7d)-(\d\x7b1,2\x7d)$`
returning the three captured integers (same greedy-run argument as
`matchD2D2Y4`). -/
def matchY4D2D2 (cs : List Char) : Option (Nat × Nat × Nat) :=
  let a := cs.takeWhile Char.isDigit
  let r1 := cs.dropWhile Char.isDigit
  if a.length != 4 then none else
  match r1 with
  | c1 :: r2 =>
    if c1 != '-' then none else
    let b := r2.takeWhile Char.isDigit
    let r3 := r2.dropWhile Char.isDigit
    if b.length < 1 || 2 < b.length then none else
    match r3 with
    | c2 :: r4 =>
      if c2 != '-' then none else
      let d := r4.takeWhile Char.isDigit
      let r5 := r4.dropWhile Char.isDigit
      if (1 ≤ d.length && d.length ≤ 2) && r5.isEmpty then some (digitsVal a, digitsVal b, digitsVal d) else none
    | [] => none
  | [] => none

/-- Source text of the first date pattern, `/^(\d\x7b1,2\x7d)\/(\d\x7b1,2\x7d)\/(\d\x7b4\x7d)$/`. -/
def patternSource1 : String := "^(\\d\x7b1,2\x7d)\\/(\\d\x7b1,2\x7d)\\/(\\d\x7b4\x7d)$"

/-- Source text of the second date pattern, `/^(\d\x7b1,2\x7d)-(\d\x7b1,2\x7d)-(\d\x7b4\x7d)$/`. -/
def patternSource2 : String := "^(\\d\x7b1,2\x7d)-(\\d\x7b1,2\x7d)-(\\d\x7b4\x7d)$"

/-- Source text of the third date pattern, `/^(\d\x7b4\x7d)-(\d\x7b1,2\x7d)-(\d\x7b1,2\x7d)$/`. -/
def patternSource3 : String := "^(\\d\x7b4\x7d)-(\\d\x7b1,2\x7d)-(\\d\x7b1,2\x7d)$"

/-- The probe string `'(\d\x7b4\x7d)'` that the source tests pattern sources
against. -/
def yearGroupProbe : String := "(\\d\x7b4\x7d)"

/-- Translation of `pattern.source.includes('(\d\x7b4\x7d)')` from the source. -/
def srcHasYearGroup (src : String) : Bool :=
  containsSubChars (yearGroupProbe.toList) src.toList

/-- Date construction from a successful pattern match, translated literally
from the source: when the pattern source contains the probe `(\d\x7b4\x7d)`
the components are used as `new Date(p1, p2 - 1, p3)`, otherwise as
`new Date(p3, p2 - 1, p1)`. -/
def dateFromMatch (src : String) (p1 p2 p3 : Nat) : JSDate :=
  if srcHasYearGroup src then jsMakeDate (p1 : Int) ((p2 : Int) - 1) (p3 : Int)
  else jsMakeDate (p3 : Int) ((p2 : Int) - 1) (p1 : Int)

/-- Embedding of `DonationProcessor.parseDate`.  Falsy cells (absent, `0`,
`NaN`, the empty string) yield `none`; a numeric cell is interpreted as
`new Date((value - 25569) * 86400 * 1000)` (an infinite value propagates to
an Invalid Date); a text cell is tried against the three anchored patterns
in order, a match constructing a date through `dateFromMatch`; otherwise
the generic fallback parser decides (its Invalid-Date result is already
`none`). -/
def parseDate (fallback : String → Option Int) : Cell → Option JSDate
  | Cell.empty => none
  | Cell.num JSNum.nan => none
  | Cell.num (JSNum.fin q) =>
    if q = 0 then none
    else some (timeClip ((q - 25569) * 86400000))
  | Cell.num JSNum.inf => some JSDate.invalid
  | Cell.num JSNum.ninf => some JSDate.invalid
  | Cell.str s =>
    if s = "" then none
    else
      let cs := s.toList
      match matchD2D2Y4 '/' cs with
      | some (p1, p2, p3) => some (dateFromMatch patternSource1 p1 p2 p3)
      | none =>
        match matchD2D2Y4 '-' cs with
        | some (p1, p2, p3) => some (dateFromMatch patternSource2 p1 p2 p3)
        | none =>
          match matchY4D2D2 cs with
          | some (p1, p2, p3) => some (dateFromMatch patternSource3 p1 p2 p3)
          | none => (fallback s).map JSDate.valid

/-- Fallback parser that recognizes nothing, for concrete evaluations. -/
def noFallback : String → Option Int := fun _ => none

/-- Embedding of `DonationProcessor.findColumnIndex`: for each candidate
name in order, the index of the first header cell containing it as a
substring; `none` models the `-1` result. -/
def findColumnIndex (headers : List String) : List String → Option Nat
  | [] => none
  | n :: ns =>
    match headers.findIdx? (fun h => containsSubChars n.toList h.toList) with
    | some i => some i
    | none => findColumnIndex headers ns

/-- Candidate names for the date column. -/
def dateNames : List String := ["data", "date", "dt"]

/-- Candidate names for the amount column. -/
def amountNames : List String := ["valor", "amount", "value", "vlr"]

/-- Candidate names for the donor column. -/
def donorNames : List String := ["doador", "donor", "nome", "name"]

/-- Candidate names for the description column. -/
def descriptionNames : List String := ["descricao", "description", "desc", "observacao"]

/-- Header normalization from the source: `String(h).toLowerCase()` on every
cell of the first row. -/
def headersOf (row : List Cell) : List String :=
  row.map (fun h => (cellToString h).toLower)

/-- Optional text field of a row: `String(row[i] || '').trim() || undefined`
when the column was found, `undefined` otherwise. -/
def optField (row : List Cell) : Option Nat → Option String
  | none => none
  | some j =>
    let s := (cellOrEmptyStr (row.getD j Cell.empty)).trim
    if s = "" then none else some s

/-- Input record produced by the record parser (source type `RawDonation`). -/
structure RawDonation where
  date : JSDate
  amount : JSNum
  donorName : Option String
  description : Option String
deriving DecidableEq, Repr

/-- Configuration-error message thrown when a required column is missing. -/
def errMissingColumns : String :=
  "Colunas obrigatórias não encontradas. Certifique-se de que há colunas de data e valor."

/-- Data-row loop of `parseExcelData`: empty rows are skipped, the date and
amount cells are interpreted, and a record is emitted only when the date is
non-null (an Invalid Date object is truthy and passes) and the amount is
not `NaN`.  An out-of-range column index reads `undefined`. -/
def parseRows (fallback : String → Option Int) (dIdx aIdx : Nat)
    (donIdx descIdx : Option Nat) : List (List Cell) → List RawDonation
  | [] => []
  | row :: rest =>
    if row.isEmpty then parseRows fallback dIdx aIdx donIdx descIdx rest
    else
      match parseDate fallback (row.getD dIdx Cell.empty) with
      | none => parseRows fallback dIdx aIdx donIdx descIdx rest
      | some dv =>
        let amount := parseAmount (row.getD aIdx Cell.empty)
        if amount = JSNum.nan then parseRows fallback dIdx aIdx donIdx descIdx rest
        else
          ⟨dv, amount, optField row donIdx, optField row descIdx⟩ ::
            parseRows fallback dIdx aIdx donIdx descIdx rest

/-- Embedding of `DonationProcessor.parseExcelData`: the empty grid yields no
records; otherwise the first row is the header, the four column indices are
located, a missing date or amount column raises the configuration error,
and the remaining rows are parsed with unparseable rows skipped. -/
def parseExcelData (fallback : String → Option Int) (data : List (List Cell)) :
    Except String (List RawDonation) :=
  match data with
  | [] => .ok []
  | headerRow :: rows =>
    let headers := headersOf headerRow
    match findColumnIndex headers dateNames, findColumnIndex headers amountNames with
    | some di, some ai =>
      .ok (parseRows fallback di ai (findColumnIndex headers donorNames)
        (findColumnIndex headers descriptionNames) rows)
    | _, _ => .error errMissingColumns

/-- Caller-supplied bucket mapping entry (source type `ChurchMapping`). -/
structure ChurchMapping where
  cents : ℚ
  churchName : String
deriving DecidableEq, Repr

/-- Lookup in `new Map(mappings.map(m => [m.cents, m.churchName]))`: with
duplicate keys the last entry wins, so the reversed list is searched first
to last. -/
def mapGet (ms : List ChurchMapping) (k : JSNum) : Option String :=
  (ms.reverse.find? (fun m => JSNum.fin m.cents == k)).map (fun m => m.churchName)

/-- Sentinel bucket name used by the source for unmapped records. -/
def naoMapeado : String := "Não mapeado"

/-- Translation of `this.mappings.get(cents) || 'Não mapeado'`: a missing or
falsy (empty) name falls back to the sentinel. -/
def jsOrChurch : Option String → String
  | some s => if s = "" then naoMapeado else s
  | none => naoMapeado

/-- Classified record (source type `ProcessedDonation`). -/
structure ProcessedDonation where
  date : JSDate
  amount : JSNum
  donorName : Option String
  description : Option String
  cents : JSNum
  assignedChurch : String
  isDuplicate : Bool
  isNegative : Bool
deriving DecidableEq, Repr

/-- Duplicate-detection key from the source:
`date.toISOString().split('T')[0] + '_' + amount + '_' + (donorName || '') + '_' + (description || '')`,
given the ISO day part already rendered. -/
def fingerprintParts (isoDay : String) (amount : JSNum)
    (donorName description : Option String) : String :=
  isoDay ++ "_" ++ amount.toStr ++ "_" ++ donorName.getD "" ++ "_" ++ description.getD ""

/-- Duplicate-detection key of a classified record (recomputable because the
record retains all four source fields); an invalid date never reaches this
point in an `Except.ok` run. -/
def fingerprint (d : ProcessedDonation) : String :=
  match d.date with
  | JSDate.valid ms =>
    fingerprintParts (isoDayOfDays (Int.fdiv ms 86400000)) d.amount d.donorName d.description
  | JSDate.invalid => ""

/-- Message of the `RangeError` thrown by `toISOString` on an Invalid Date. -/
def errInvalidTime : String := "Invalid time value"

/-- Cent key derivation from the source:
`Math.round(Math.abs(amount) * 100) % 100`. -/
def centsOf (amount : JSNum) : JSNum :=
  (JSNum.round (JSNum.mul amount.abs (JSNum.fin 100))).mod (JSNum.fin 100)

/-- Loop of `processDonations` carrying the running set of seen fingerprints.
Building the key calls `toISOString`, which throws on an Invalid Date; the
exception propagates and discards every record of the run. -/
def processGo (ms : List ChurchMapping) (seen : List String) :
    List RawDonation → Except String (List ProcessedDonation)
  | [] => .ok []
  | d :: ds =>
    let cents := centsOf d.amount
    match d.date with
    | JSDate.invalid => .error errInvalidTime
    | JSDate.valid t =>
      let key := fingerprintParts (isoDayOfDays (Int.fdiv t 86400000)) d.amount d.donorName d.description
      let isDup := seen.contains key
      let assigned := jsOrChurch (mapGet ms cents)
      match processGo ms (key :: seen) ds with
      | .error e => .error e
      | .ok rest =>
        .ok (⟨d.date, d.amount, d.donorName, d.description, cents, assigned, isDup,
          d.amount.ltZero⟩ :: rest)

/-- Embedding of `DonationProcessor.processDonations`. -/
def processDonations (ms : List ChurchMapping) (ds : List RawDonation) :
    Except String (List ProcessedDonation) :=
  processGo ms [] ds

/-- Embedding of `DonationProcessor.separateByMapping`: the mapped partition
first, the unmapped partition second. -/
def separateByMapping (donations : List ProcessedDonation) :
    List ProcessedDonation × List ProcessedDonation :=
  (donations.filter (fun d => !(d.assignedChurch == naoMapeado)),
   donations.filter (fun d => d.assignedChurch == naoMapeado))

/-- Accumulator entry of `generateSummary`'s church map; JavaScript `Map`
iterates in insertion order, so the map is a list extended at the back. -/
structure ChurchAcc where
  churchName : String
  total : JSNum
  count : Nat
  cents : JSNum
deriving DecidableEq, Repr

/-- One step of the church map accumulation: an existing entry (the first
with this name) accumulates in place, a new name is appended with the
current record's cents. -/
def upsertChurch (name : String) (amt cents : JSNum) : List ChurchAcc → List ChurchAcc
  | [] => [⟨name, JSNum.add (JSNum.fin 0) amt, 0 + 1, cents⟩]
  | e :: es =>
    if e.churchName == name then ⟨e.churchName, JSNum.add e.total amt, e.count + 1, e.cents⟩ :: es
    else e :: upsertChurch name amt cents es

/-- Accumulation loop of `generateSummary`: sentinel records are skipped,
every other record adds `Math.abs(amount)` to its church's total. -/
def summaryFold (acc : List ChurchAcc) : List ProcessedDonation → List ChurchAcc
  | [] => acc
  | d :: ds =>
    if d.assignedChurch == naoMapeado then summaryFold acc ds
    else summaryFold (upsertChurch d.assignedChurch d.amount.abs d.cents acc) ds

/-- Summary row (source type `ChurchSummary`). -/
structure ChurchSummary where
  churchName : String
  cents : JSNum
  total : JSNum
  count : Nat
deriving DecidableEq, Repr

/-- Entry-to-row conversion from `generateSummary`. -/
def accToSummary (e : ChurchAcc) : ChurchSummary :=
  ⟨e.churchName, e.cents, e.total, e.count⟩

/-- Pre-sort summary rows, in first-appearance order of the buckets. -/
def summaryRows (donations : List ProcessedDonation) : List ChurchSummary :=
  (summaryFold [] donations).map accToSummary

/-- Strict precedence induced by the comparator `(a, b) => b.total - a.total`:
`a` must sort strictly before `b` exactly when the comparator is negative
(a `NaN` comparator value is treated as zero by `Array.prototype.sort`). -/
def sortGT (a b : ChurchSummary) : Bool := (JSNum.sub b.total a.total).ltZero

/-- Stable descending insertion: the element goes after every element that
must sort strictly before it.  `Array.prototype.sort` is a stable sort, and
a stable sort with respect to a consistent comparator is unique, so this
insertion sort computes the same list. -/
def insertSummary (x : ChurchSummary) : List ChurchSummary → List ChurchSummary
  | [] => [x]
  | h :: t => if sortGT h x then h :: insertSummary x t else x :: h :: t

/-- Stable sort of the summary rows by total, descending. -/
def sortSummaries : List ChurchSummary → List ChurchSummary
  | [] => []
  | x :: xs => insertSummary x (sortSummaries xs)

/-- Embedding of `DonationProcessor.generateSummary`. -/
def generateSummary (donations : List ProcessedDonation) : List ChurchSummary :=
  sortSummaries (summaryRows donations)

/-- Run statistics (source type `ProcessingStats`). -/
structure ProcessingStats where
  totalProcessed : Nat
  duplicatesFound : Nat
  negativeValuesFound : Nat
  unmappedCount : Nat
deriving DecidableEq, Repr

/-- Embedding of `DonationProcessor.generateStats`. -/
def generateStats (allDonations unmappedDonations : List ProcessedDonation) : ProcessingStats :=
  ⟨allDonations.length,
   (allDonations.filter (fun d => d.isDuplicate)).length,
   (allDonations.filter (fun d => d.isNegative)).length,
   unmappedDonations.length⟩

/-- Result shape of `processExcelFile`. -/
structure PipelineResult where
  donations : List ProcessedDonation
  summary : List ChurchSummary
  unmappedDonations : List ProcessedDonation
  stats : ProcessingStats
deriving DecidableEq, Repr

/-- Embedding of the pipeline composed by `processExcelFile` after the file
has been decoded to a grid: parse, classify, partition, summarize, count. -/
def runPipeline (fallback : String → Option Int) (ms : List ChurchMapping)
    (grid : List (List Cell)) : Except String PipelineResult :=
  match parseExcelData fallback grid with
  | .error e => .error e
  | .ok raws =>
    match processDonations ms raws with
    | .error e => .error e
    | .ok ps =>
      let parts := separateByMapping ps
      .ok ⟨parts.1, generateSummary parts.1, parts.2, generateStats ps parts.2⟩

/-! Spec-side definitions, written from the specification's words, used to
state claims that compare the code against the spec's description. -/

/-- Rounding rule named by the specification: round to the nearest integer,
ties away from zero. -/
def roundTiesAway (q : ℚ) : ℤ :=
  if 0 ≤ q then ⌊q + 1 / 2⌋ else -⌊-q + 1 / 2⌋

/-- Property demanded by claim C2 of a cent key: an integer between 0 and 99. -/
def centKeyInRange (x : JSNum) : Prop :=
  ∃ n : ℤ, x = JSNum.fin (n : ℚ) ∧ 0 ≤ n ∧ n ≤ 99

/-- Spec step: strip currency markers (`R`, `$`) and whitespace. -/
def specStripMarkers (cs : List Char) : List Char :=
  cs.filter (fun ch => !(ch == 'R' || ch == '$' || ch.isWhitespace))

/-- Spec step: remove every `.` (thousands separator). -/
def specRemoveDots (cs : List Char) : List Char :=
  cs.filter (fun ch => ch != '.')

/-- Spec step: replace the first (or only) `,` with a decimal point. -/
def specSwapFirstComma : List Char → List Char
  | [] => []
  | c :: cs => if c == ',' then '.' :: cs else c :: specSwapFirstComma cs

/-- Spec step: a literal `-` or an opening parenthesis anywhere marks the
value negative. -/
def specNegativeMarker (cs : List Char) : Bool :=
  cs.contains '-' || cs.contains '('

/-- Spec step: strip all `-`, `(`, `)` characters. -/
def specStripSigns (cs : List Char) : List Char :=
  cs.filter (fun ch => !(ch == '-' || ch == '(' || ch == ')'))

/-- Claim C8's final step read strictly: the whole remainder must be an
unsigned decimal numeral (digits with an optional fractional part and
nothing else), otherwise the failure sentinel. -/
def specUnsignedDecimal (cs : List Char) : JSNum :=
  let ip := cs.takeWhile Char.isDigit
  match cs.dropWhile Char.isDigit with
  | [] => if ip.isEmpty then JSNum.nan else JSNum.fin (digitsVal ip : ℚ)
  | '.' :: r =>
    if r.all Char.isDigit && !(ip.isEmpty && r.isEmpty) then
      JSNum.fin ((digitsVal ip : ℚ) + (digitsVal r : ℚ) / (10 : ℚ) ^ r.length)
    else JSNum.nan
  | _ => JSNum.nan

/-- Amount parsing exactly as claim C8 words it, with the final parse
strict: stringify and trim, fail on empty, strip markers, remove dots,
swap the first comma, detect and strip the negative indicator, parse the
remainder as an unsigned decimal, negate on the indicator; numeric cells
verbatim. -/
def strictParseAmount : Cell → JSNum
  | Cell.num v => v
  | c =>
    let s := (cellOrEmptyStr c).trim
    if s = "" then JSNum.nan
    else
      let cs := specSwapFirstComma (specRemoveDots (specStripMarkers s.toList))
      let neg := specNegativeMarker cs
      let v := specUnsignedDecimal (specStripSigns cs)
      if neg then v.neg else v

/-- Amount parsing as claim C8 words it, amended only in the final step:
the remainder is parsed with JavaScript `parseFloat` semantics (longest
numeric-literal prefix, a leading sign accepted, trailing characters
ignored). -/
def specParseAmount : Cell → JSNum
  | Cell.num v => v
  | c =>
    let s := (cellOrEmptyStr c).trim
    if s = "" then JSNum.nan
    else
      let cs := specSwapFirstComma (specRemoveDots (specStripMarkers s.toList))
      let neg := specNegativeMarker cs
      let v := parseFloatChars (specStripSigns cs)
      if neg then v.neg else v

/-- First-appearance order of the non-sentinel bucket names in a record
sequence, defined directly by recursion with a seen accumulator. -/
def firstAppearancesGo (seen : List String) : List ProcessedDonation → List String
  | [] => []
  | d :: ds =>
    if d.assignedChurch == naoMapeado || seen.contains d.assignedChurch then
      firstAppearancesGo seen ds
    else d.assignedChurch :: firstAppearancesGo (d.assignedChurch :: seen) ds

/-- First-appearance order of the buckets of a record sequence. -/
def firstAppearances (ds : List ProcessedDonation) : List String :=
  firstAppearancesGo [] ds

/-- Zero for summing JavaScript numbers (the accumulator's initial `0`). -/
instance : Zero JSNum := ⟨JSNum.fin 0⟩

/-- Addition instance wrapping `JSNum.add`. -/
instance : Add JSNum := ⟨JSNum.add⟩

/-- With exact (unrounded) finite values, JavaScript addition on
`{NaN, ±Infinity} ∪ ℚ` is a commutative monoid, which justifies speaking of
"the sum" over a multiset of amounts. -/
instance : AddCommMonoid JSNum where
  add_assoc a b c := by
    show (a.add b).add c = a.add (b.add c)
    cases a <;> cases b <;> cases c <;> simp [JSNum.add] <;> ring
  zero_add a := by
    show (JSNum.fin 0).add a = a
    cases a <;> simp [JSNum.add]
  add_zero a := by
    show a.add (JSNum.fin 0) = a
    cases a <;> simp [JSNum.add]
  add_comm a b := by
    show a.add b = b.add a
    cases a <;> cases b <;> simp [JSNum.add] <;> ring
  nsmul := nsmulRec

/-- Sum of the absolute amounts of a record list (the quantity the claims
call "the sum of |amount|"). -/
def sumAbs (ds : List ProcessedDonation) : JSNum :=
  (ds.map (fun d => d.amount.abs)).sum

/-- Sum of the absolute amounts of the records assigned to one bucket. -/
def groupSum (n : String) (ds : List ProcessedDonation) : JSNum :=
  ((ds.filter (fun d => d.assignedChurch == n)).map (fun d => d.amount.abs)).sum

/-- Bucket names of an accumulator list, in order. -/
def accNames (l : List ChurchAcc) : List String :=
  l.map (fun e => e.churchName)

/-- Total recorded in an accumulator list for a bucket name (0 if absent). -/
def entTotal (l : List ChurchAcc) (n : String) : JSNum :=
  match l.find? (fun e => e.churchName == n) with
  | some e => e.total
  | none => 0

/-- JavaScript numbers that are neither `NaN` nor `-Infinity`; absolute
values are of this kind, and sums of such values never produce `NaN`. -/
def PosJS (x : JSNum) : Prop := x ≠ JSNum.nan ∧ x ≠ JSNum.ninf

/-! Helper lemmas. -/

theorem ratTrunc_intCast (m : ℤ) : ratTrunc (m : ℚ) = m := by
  unfold ratTrunc
  split
  · exact Int.floor_intCast m
  · exact Int.ceil_intCast m

theorem timeClip_intCast (m : ℤ) (h : |m| ≤ 8640000000000000) :
    timeClip (m : ℚ) = JSDate.valid m := by
  unfold timeClip
  rw [if_pos, ratTrunc_intCast]
  exact_mod_cast h

theorem daysFromCivil_epoch1899 : daysFromCivil 1899 12 30 = -25569 := by decide

/-! Claim theorems. -/

/-- C10: on the completely empty grid (no rows, hence no header row) the run
succeeds with empty mapped records, empty summaries, empty unmapped records
and all-zero statistics, instead of raising the missing-required-columns
configuration error; the required-column check only applies when at least
one row exists. -/
theorem C10_empty_grid_succeeds (fallback : String → Option Int) (ms : List ChurchMapping) :
    runPipeline fallback ms [] = Except.ok ⟨[], [], [], ⟨0, 0, 0, 0⟩⟩ := rfl

/-- C1: evaluation of the embedded `parseDate` at the failing input
`"25/12/2024"`.  The source's branch test `pattern.source.includes('(\d\x7b4\x7d)')`
is true for all three patterns (each pattern source contains a four-digit
year group), so the `DD/MM/YYYY` match is constructed as
`new Date(25, 11, 2024)` — the day used as the year — instead of the
intended `new Date(2024, 11, 25)`; the two dates differ.  The source's own
comments (`// Check if it's YYYY-MM-DD format`, `// DD/MM/YYYY or
DD-MM-YYYY`) document the intended behavior of the dead `else` branch. -/
theorem C1_dd_mm_yyyy_misconstructed :
    parseDate noFallback (Cell.str ("25/12/2024")) = some (jsMakeDate 25 11 2024)
    ∧ srcHasYearGroup patternSource1 = true
    ∧ srcHasYearGroup patternSource2 = true
    ∧ srcHasYearGroup patternSource3 = true
    ∧ jsMakeDate 25 11 2024 = JSDate.valid (-1216425600000)
    ∧ jsMakeDate 2024 11 25 = JSDate.valid 1735084800000
    ∧ jsMakeDate 25 11 2024 ≠ jsMakeDate 2024 11 25 := by
  refine ⟨by with_unfolding_all rfl, by decide, by decide, by decide, by decide, by decide, by decide⟩

/-- C5 counterexample: the claim says a finite numeric cell is always
interpreted as a serial day count and a non-finite one always fails with
the none sentinel; but the finite value `0` is falsy and returns `none`,
while `Infinity` passes the falsiness test and produces an Invalid Date
object, which is not the none sentinel. -/
theorem C5_counterexample :
    parseDate noFallback (Cell.num (JSNum.fin 0)) = none
    ∧ parseDate noFallback (Cell.num JSNum.inf) = some JSDate.invalid
    ∧ some JSDate.invalid ≠ (none : Option JSDate) := by
  refine ⟨by with_unfolding_all rfl, rfl, by decide⟩

/-- C5 amended: a numeric cell holding a truthy (nonzero, non-`NaN`) finite
serial value within the representable range yields the date
`epoch(1899-12-30) + serial` days; `0` and `NaN` — being falsy — yield the
none sentinel; infinite values yield an Invalid Date object rather than
the none sentinel. -/
theorem C5_numeric_serial_amended (fallback : String → Option Int) (n : ℤ)
    (hn : n ≠ 0) (h1 : -99000000 ≤ n) (h2 : n ≤ 100000000) :
    parseDate fallback (Cell.num (JSNum.fin (n : ℚ))) =
      some (JSDate.valid ((daysFromCivil 1899 12 30 + n) * 86400000))
    ∧ parseDate fallback (Cell.num JSNum.nan) = none
    ∧ parseDate fallback (Cell.num (JSNum.fin 0)) = none
    ∧ parseDate fallback (Cell.num JSNum.inf) = some JSDate.invalid
    ∧ parseDate fallback (Cell.num JSNum.ninf) = some JSDate.invalid := by
  refine ⟨?_, rfl, by with_unfolding_all rfl, rfl, rfl⟩
  have hq : ((n : ℚ)) ≠ 0 := by exact_mod_cast hn
  have e1 : parseDate fallback (Cell.num (JSNum.fin (n : ℚ))) =
      if (n : ℚ) = 0 then none else some (timeClip (((n : ℚ) - 25569) * 86400000)) := rfl
  have e2 : ((n : ℚ) - 25569) * 86400000 = (((n - 25569) * 86400000 : ℤ) : ℚ) := by
    push_cast
    ring
  have hb : |(n - 25569) * 86400000| ≤ 8640000000000000 := by
    have h3 : |n - 25569| ≤ 100000000 := by
      rw [abs_le]
      omega
    have h4 : |(n - 25569) * 86400000| = |n - 25569| * 86400000 := by
      rw [abs_mul]
      norm_num
    rw [h4]
    calc |n - 25569| * 86400000 ≤ 100000000 * 86400000 :=
          mul_le_mul_of_nonneg_right h3 (by norm_num)
      _ = 8640000000000000 := by norm_num
  have e3 : timeClip (((n - 25569) * 86400000 : ℤ) : ℚ) =
      JSDate.valid ((n - 25569) * 86400000) := timeClip_intCast _ hb
  rw [e1, if_neg hq, e2, e3, daysFromCivil_epoch1899,
    show (n - 25569) * 86400000 = (-25569 + n) * 86400000 from by ring]

/-- C5 witness: the amended statement applied at serial value 45000
(2023-03-15). -/
theorem C5_numeric_serial_amended_witness :
    parseDate noFallback (Cell.num (JSNum.fin ((45000 : ℤ) : ℚ))) =
      some (JSDate.valid ((daysFromCivil 1899 12 30 + 45000) * 86400000))
    ∧ parseDate noFallback (Cell.num JSNum.nan) = none
    ∧ parseDate noFallback (Cell.num (JSNum.fin 0)) = none
    ∧ parseDate noFallback (Cell.num JSNum.inf) = some JSDate.invalid
    ∧ parseDate noFallback (Cell.num JSNum.ninf) = some JSDate.invalid :=
  C5_numeric_serial_amended noFallback 45000 (by decide) (by decide) (by decide)

/-- C4 counterexample: a grid whose header has both required columns can
still abort the run — a numeric date cell holding `Infinity` produces an
Invalid Date object, which is truthy and passes row validation, and the
classifier's `toISOString` call then throws a `RangeError`, an abort that
is not the configuration error. -/
theorem C4_counterexample :
    runPipeline noFallback []
      [[Cell.str ("data"), Cell.str ("valor")], [Cell.num JSNum.inf, Cell.num (JSNum.fin 5)]]
      = Except.error errInvalidTime
    ∧ findColumnIndex (headersOf [Cell.str ("data"), Cell.str ("valor")]) dateNames = some 0
    ∧ findColumnIndex (headersOf [Cell.str ("data"), Cell.str ("valor")]) amountNames = some 1
    ∧ errInvalidTime ≠ errMissingColumns := by
  refine ⟨by with_unfolding_all rfl, by with_unfolding_all rfl, by with_unfolding_all rfl, by decide⟩

/-- C2 counterexample: a run on a grid whose amount cell is `Infinity`
produces a classified record whose cent key is `NaN` — not an integer
between 0 and 99 — because row validation only rejects `NaN` amounts and
`Math.round(Infinity) % 100` is `NaN`. -/
theorem C2_counterexample :
    runPipeline noFallback []
      [[Cell.str ("data"), Cell.str ("valor")], [Cell.num (JSNum.fin 1), Cell.num JSNum.inf]]
      = Except.ok ⟨[], [], [⟨JSDate.valid (-2209075200000), JSNum.inf, none, none, JSNum.nan,
          naoMapeado, false, false⟩], ⟨1, 0, 0, 1⟩⟩
    ∧ ¬ centKeyInRange JSNum.nan := by
  constructor
  · with_unfolding_all rfl
  · rintro ⟨n, h, -, -⟩
    exact JSNum.noConfusion h

/-- C3 counterexample: the underscore-joined fingerprint makes two records
that differ in both donor and description collide — donor `"x_y"` with
description `"z"` and donor `"x"` with description `"y_z"` build the same
key — so the second record is flagged as a duplicate although no earlier
record has identical donor text and identical description text. -/
theorem C3_counterexample :
    processDonations []
      [⟨JSDate.valid 0, JSNum.fin 5, some ("x_y"), some ("z")⟩,
       ⟨JSDate.valid 0, JSNum.fin 5, some ("x"), some ("y_z")⟩]
      = Except.ok
        [⟨JSDate.valid 0, JSNum.fin 5, some ("x_y"), some ("z"), JSNum.fin 0, naoMapeado, false, false⟩,
         ⟨JSDate.valid 0, JSNum.fin 5, some ("x"), some ("y_z"), JSNum.fin 0, naoMapeado, true, false⟩]
    ∧ (some ("x_y") : Option String) ≠ some ("x")
    ∧ (some ("z") : Option String) ≠ some ("y_z") := by
  refine ⟨by with_unfolding_all rfl, by decide, by decide⟩

/-- C8 counterexample: on the text cell `"5abc"` the code returns `5`
(JavaScript `parseFloat` parses the longest numeric prefix and ignores the
trailing characters), while the claim's step "parse the remainder as an
unsigned decimal" — the remainder being `5abc`, which is not an unsigned
decimal numeral — demands the failure sentinel. -/
theorem C8_counterexample :
    parseAmount (Cell.str ("5abc")) = JSNum.fin 5
    ∧ strictParseAmount (Cell.str ("5abc")) = JSNum.nan := by
  constructor
  · with_unfolding_all rfl
  · with_unfolding_all rfl

theorem replaceFirstComma_eq_spec (l : List Char) : replaceFirstComma l = specSwapFirstComma l := by
  induction l with
  | nil => rfl
  | cons c cs ih =>
    simp only [replaceFirstComma, specSwapFirstComma, ih]

/-- C8 amended: `parseAmount` agrees everywhere with the claim's step-by-step
description once the final step is read with JavaScript `parseFloat`
semantics — the longest numeric-literal prefix is parsed (a leading sign
accepted, trailing characters ignored) — instead of a strict whole-string
unsigned-decimal parse; numeric cells are returned verbatim with the sign
preserved. -/
theorem C8_parseAmount_amended (c : Cell) : parseAmount c = specParseAmount c := by
  cases c with
  | num v => rfl
  | empty =>
    simp only [parseAmount, specParseAmount, specStripMarkers, specRemoveDots,
      specNegativeMarker, specStripSigns, replaceFirstComma_eq_spec]
  | str s =>
    simp only [parseAmount, specParseAmount, specStripMarkers, specRemoveDots,
      specNegativeMarker, specStripSigns, replaceFirstComma_eq_spec]

theorem parseExcelData_cons (fallback : String → Option Int) (headerRow : List Cell)
    (rows : List (List Cell)) :
    parseExcelData fallback (headerRow :: rows) =
      (match findColumnIndex (headersOf headerRow) dateNames,
            findColumnIndex (headersOf headerRow) amountNames with
      | some di, some ai => .ok (parseRows fallback di ai
          (findColumnIndex (headersOf headerRow) donorNames)
          (findColumnIndex (headersOf headerRow) descriptionNames) rows)
      | _, _ => .error errMissingColumns) := rfl

theorem processGo_nil (ms : List ChurchMapping) (seen : List String) :
    processGo ms seen [] = Except.ok [] := rfl

theorem processGo_cons_invalid (ms : List ChurchMapping) (seen : List String)
    (d : RawDonation) (tl : List RawDonation) (hd : d.date = JSDate.invalid) :
    processGo ms seen (d :: tl) = Except.error errInvalidTime := by
  unfold processGo
  rw [hd]

theorem processGo_cons_valid (ms : List ChurchMapping) (seen : List String)
    (d : RawDonation) (tl : List RawDonation) (t : Int) (hd : d.date = JSDate.valid t) :
    processGo ms seen (d :: tl) =
      (match processGo ms
          (fingerprintParts (isoDayOfDays (Int.fdiv t 86400000)) d.amount d.donorName d.description
            :: seen) tl with
      | .error e => .error e
      | .ok rest =>
        .ok (⟨d.date, d.amount, d.donorName, d.description, centsOf d.amount,
          jsOrChurch (mapGet ms (centsOf d.amount)),
          seen.contains
            (fingerprintParts (isoDayOfDays (Int.fdiv t 86400000)) d.amount d.donorName d.description),
          d.amount.ltZero⟩ :: rest)) := by
  conv =>
    lhs
    unfold processGo
  rw [hd]

theorem processGo_error_eq (ms : List ChurchMapping) (seen : List String)
    (ds : List RawDonation) (e : String) (h : processGo ms seen ds = Except.error e) :
    e = errInvalidTime := by
  induction ds generalizing seen with
  | nil => exact absurd h (by simp [processGo_nil])
  | cons d tl ih =>
    cases hd : d.date with
    | invalid =>
      rw [processGo_cons_invalid ms seen d tl hd] at h
      exact ((Except.error.injEq _ _).mp h).symm
    | valid t =>
      rw [processGo_cons_valid ms seen d tl t hd] at h
      cases hrec : processGo ms
          (fingerprintParts (isoDayOfDays (Int.fdiv t 86400000)) d.amount d.donorName d.description
            :: seen) tl with
      | error e' =>
        rw [hrec] at h
        simp only [Except.error.injEq] at h
        rw [h] at hrec
        exact ih _ hrec
      | ok rest =>
        rw [hrec] at h
        exact absurd h (by simp)

theorem processGo_error_iff (ms : List ChurchMapping) (seen : List String)
    (ds : List RawDonation) :
    (∃ e, processGo ms seen ds = Except.error e) ↔ ∃ d ∈ ds, d.date = JSDate.invalid := by
  induction ds generalizing seen with
  | nil => simp [processGo_nil]
  | cons d tl ih =>
    cases hd : d.date with
    | invalid =>
      rw [processGo_cons_invalid ms seen d tl hd]
      simp [hd]
    | valid t =>
      rw [processGo_cons_valid ms seen d tl t hd]
      cases hrec : processGo ms
          (fingerprintParts (isoDayOfDays (Int.fdiv t 86400000)) d.amount d.donorName d.description
            :: seen) tl with
      | error e' =>
        have : ∃ d' ∈ tl, d'.date = JSDate.invalid := (ih _).mp ⟨e', hrec⟩
        simp only [hrec]
        constructor
        · intro _
          obtain ⟨d', hmem, hinv⟩ := this
          exact ⟨d', List.mem_cons_of_mem d hmem, hinv⟩
        · intro _
          exact ⟨e', rfl⟩
      | ok rest =>
        have hnone : ¬ ∃ e, Except.error (α := List ProcessedDonation) e =
            (Except.ok rest : Except String (List ProcessedDonation)) := by simp
        simp only [hrec]
        constructor
        · rintro ⟨e, he⟩
          exact absurd he (by simp)
        · rintro ⟨d', hmem, hinv⟩
          rcases List.mem_cons.mp hmem with h1 | h1
          · rw [h1, hd] at hinv
            exact absurd hinv (by simp)
          · obtain ⟨e, he⟩ := (ih _).mpr ⟨d', h1, hinv⟩
            rw [he] at hrec
            exact absurd hrec (by simp)

/-- C4 amended: with at least one row present, the run fails with the
configuration error exactly when the header lacks a date or an amount
column; unparseable or empty data rows are silently skipped; the only
other way the run aborts is the `toISOString` range error, which happens
exactly when a row passes validation carrying an Invalid Date (a
non-finite numeric date cell), and every abort is one of these two
errors. -/
theorem C4_required_columns_amended (fallback : String → Option Int) (ms : List ChurchMapping)
    (headerRow : List Cell) (rows : List (List Cell)) :
    (runPipeline fallback ms (headerRow :: rows) = Except.error errMissingColumns
      ↔ (findColumnIndex (headersOf headerRow) dateNames = none
         ∨ findColumnIndex (headersOf headerRow) amountNames = none))
    ∧ ((∃ e, runPipeline fallback ms (headerRow :: rows) = Except.error e
          ∧ e ≠ errMissingColumns)
      ↔ ∃ raws, parseExcelData fallback (headerRow :: rows) = Except.ok raws
          ∧ ∃ d ∈ raws, d.date = JSDate.invalid)
    ∧ (∀ e, runPipeline fallback ms (headerRow :: rows) = Except.error e →
        e = errMissingColumns ∨ e = errInvalidTime) := by
  have hmsg : errInvalidTime ≠ errMissingColumns := by decide
  cases hdi : findColumnIndex (headersOf headerRow) dateNames with
  | none =>
    have hparse0 : parseExcelData fallback (headerRow :: rows) = Except.error errMissingColumns := by
      rw [parseExcelData_cons, hdi]
    have hrun : runPipeline fallback ms (headerRow :: rows) = Except.error errMissingColumns := by
      unfold runPipeline
      rw [hparse0]
    have hparse : ∀ raws, parseExcelData fallback (headerRow :: rows) ≠ Except.ok raws := by
      intro raws
      rw [hparse0]
      simp
    refine ⟨by simp [hrun], ?_, ?_⟩
    · constructor
      · rintro ⟨e, he, hne⟩
        rw [hrun] at he
        exact absurd ((Except.error.injEq _ _).mp he).symm hne
      · rintro ⟨raws, hok, -⟩
        exact absurd hok (hparse raws)
    · intro e he
      rw [hrun] at he
      exact Or.inl ((Except.error.injEq _ _).mp he).symm
  | some di =>
    cases hai : findColumnIndex (headersOf headerRow) amountNames with
    | none =>
      have hparse0 : parseExcelData fallback (headerRow :: rows) = Except.error errMissingColumns := by
        rw [parseExcelData_cons, hdi, hai]
      have hrun : runPipeline fallback ms (headerRow :: rows) = Except.error errMissingColumns := by
        unfold runPipeline
        rw [hparse0]
      have hparse : ∀ raws, parseExcelData fallback (headerRow :: rows) ≠ Except.ok raws := by
        intro raws
        rw [hparse0]
        simp
      refine ⟨by simp [hrun], ?_, ?_⟩
      · constructor
        · rintro ⟨e, he, hne⟩
          rw [hrun] at he
          exact absurd ((Except.error.injEq _ _).mp he).symm hne
        · rintro ⟨raws, hok, -⟩
          exact absurd hok (hparse raws)
      · intro e he
        rw [hrun] at he
        exact Or.inl ((Except.error.injEq _ _).mp he).symm
    | some ai =>
      have hparse : parseExcelData fallback (headerRow :: rows) =
          Except.ok (parseRows fallback di ai (findColumnIndex (headersOf headerRow) donorNames)
            (findColumnIndex (headersOf headerRow) descriptionNames) rows) := by
        rw [parseExcelData_cons, hdi, hai]
      have hrun : runPipeline fallback ms (headerRow :: rows) =
          (match processDonations ms (parseRows fallback di ai
              (findColumnIndex (headersOf headerRow) donorNames)
              (findColumnIndex (headersOf headerRow) descriptionNames) rows) with
          | .error e => .error e
          | .ok ps =>
            .ok ⟨(separateByMapping ps).1, generateSummary (separateByMapping ps).1,
              (separateByMapping ps).2, generateStats ps (separateByMapping ps).2⟩) := by
        unfold runPipeline
        rw [hparse]
      cases hproc : processDonations ms (parseRows fallback di ai
          (findColumnIndex (headersOf headerRow) donorNames)
          (findColumnIndex (headersOf headerRow) descriptionNames) rows) with
      | error e =>
        have herr : e = errInvalidTime := processGo_error_eq ms [] _ e hproc
        have hinv : ∃ d ∈ parseRows fallback di ai
            (findColumnIndex (headersOf headerRow) donorNames)
            (findColumnIndex (headersOf headerRow) descriptionNames) rows,
            d.date = JSDate.invalid := (processGo_error_iff ms [] _).mp ⟨e, hproc⟩
        rw [hproc] at hrun
        refine ⟨?_, ?_, ?_⟩
        · rw [hrun, herr]
          simp [hmsg]
        · constructor
          · intro _
            exact ⟨_, hparse, hinv⟩
          · intro _
            exact ⟨e, hrun, herr ▸ hmsg⟩
        · intro e' he'
          rw [hrun] at he'
          exact Or.inr (((Except.error.injEq _ _).mp he').symm.trans herr)
      | ok ps =>
        rw [hproc] at hrun
        refine ⟨?_, ?_, ?_⟩
        · rw [hrun]
          simp
        · constructor
          · rintro ⟨e, he, -⟩
            rw [hrun] at he
            exact absurd he (by simp)
          · rintro ⟨raws, hok, hinv⟩
            rw [hparse] at hok
            have : raws = parseRows fallback di ai
                (findColumnIndex (headersOf headerRow) donorNames)
                (findColumnIndex (headersOf headerRow) descriptionNames) rows :=
              ((Except.ok.injEq _ _).mp hok).symm
            rw [this] at hinv
            obtain ⟨e, he⟩ := (processGo_error_iff ms [] _).mpr hinv
            have hproc2 : processGo ms []
                (parseRows fallback di ai (findColumnIndex (headersOf headerRow) donorNames)
                  (findColumnIndex (headersOf headerRow) descriptionNames) rows) =
                Except.ok ps := hproc
            rw [he] at hproc2
            exact absurd hproc2 (by simp)
        · intro e he
          rw [hrun] at he
          exact absurd he (by simp)

theorem processGo_ok_fields (ms : List ChurchMapping) (seen : List String)
    (ds : List RawDonation) (l : List ProcessedDonation)
    (h : processGo ms seen ds = Except.ok l) :
    ∀ p ∈ l, p.cents = centsOf p.amount
      ∧ p.assignedChurch = jsOrChurch (mapGet ms (centsOf p.amount))
      ∧ p.isNegative = p.amount.ltZero := by
  induction ds generalizing seen l with
  | nil =>
    rw [processGo_nil] at h
    have hl : ([] : List ProcessedDonation) = l := (Except.ok.injEq _ _).mp h
    rw [← hl]
    simp
  | cons d tl ih =>
    cases hd : d.date with
    | invalid =>
      rw [processGo_cons_invalid ms seen d tl hd] at h
      exact absurd h (by simp)
    | valid t =>
      rw [processGo_cons_valid ms seen d tl t hd] at h
      cases hrec : processGo ms
          (fingerprintParts (isoDayOfDays (Int.fdiv t 86400000)) d.amount d.donorName d.description
            :: seen) tl with
      | error e =>
        rw [hrec] at h
        exact absurd h (by simp)
      | ok rest =>
        rw [hrec] at h
        simp only [Except.ok.injEq] at h
        rw [← h]
        intro p hp
        rcases List.mem_cons.mp hp with h1 | h1
        · rw [h1]
          exact ⟨rfl, rfl, rfl⟩
        · exact ih _ _ hrec p h1

theorem centsOf_fin (q : ℚ) :
    centsOf (JSNum.fin q) =
      JSNum.fin ((⌊|q| * 100 + 1 / 2⌋ % 100 : ℤ) : ℚ) := by
  have e1 : centsOf (JSNum.fin q) =
      JSNum.mod (JSNum.fin ((⌊|q| * 100 + 1 / 2⌋ : ℤ) : ℚ)) (JSNum.fin 100) := rfl
  set a : ℤ := ⌊|q| * 100 + 1 / 2⌋ with ha
  have ha0 : 0 ≤ a := by
    rw [ha]
    apply Int.floor_nonneg.mpr
    positivity
  set e : ℤ := a / 100 with he
  set r : ℤ := a % 100 with hr
  have hsum : 100 * e + r = a := by
    rw [he, hr]
    omega
  have hr0 : 0 ≤ r := by
    rw [hr]
    omega
  have hr99 : r < 100 := by
    rw [hr]
    omega
  have hcast : (a : ℚ) = 100 * (e : ℚ) + (r : ℚ) := by exact_mod_cast hsum.symm
  have hdiv : (a : ℚ) / 100 = (e : ℚ) + (r : ℚ) / 100 := by
    rw [hcast]
    ring
  have hfr : ⌊(r : ℚ) / 100⌋ = 0 := by
    apply Int.floor_eq_zero_iff.mpr
    constructor
    · positivity
    · rw [div_lt_one (by norm_num : (0:ℚ) < 100)]
      exact_mod_cast hr99
  have htr : ratTrunc ((a : ℚ) / 100) = e := by
    unfold ratTrunc
    rw [if_pos (by positivity)]
    rw [hdiv, add_comm, Int.floor_add_int, hfr, zero_add]
  rw [e1]
  show (if (100 : ℚ) = 0 then JSNum.nan
    else JSNum.fin ((a : ℚ) - 100 * ((ratTrunc ((a : ℚ) / 100) : ℤ) : ℚ))) = _
  rw [if_neg (by norm_num : ¬(100 : ℚ) = 0), htr]
  congr 1
  push_cast [← hsum]
  ring

/-- C2 amended: every classified record whose amount is a finite value `q`
gets the integer cent key `round(|q|·100) mod 100` (round to nearest, ties
away from zero), an integer between 0 and 99; the restriction to finite
amounts is necessary because an `Infinity` amount passes row validation and
produces the cent key `NaN`. -/
theorem C2_centKey_amended (ms : List ChurchMapping) (ds : List RawDonation)
    (l : List ProcessedDonation) (p : ProcessedDonation) (q : ℚ)
    (hok : processDonations ms ds = Except.ok l) (hp : p ∈ l)
    (hq : p.amount = JSNum.fin q) :
    p.cents = JSNum.fin ((roundTiesAway (|q| * 100) % 100 : ℤ) : ℚ)
    ∧ 0 ≤ roundTiesAway (|q| * 100) % 100
    ∧ roundTiesAway (|q| * 100) % 100 ≤ 99
    ∧ centKeyInRange p.cents := by
  have hfields := processGo_ok_fields ms [] ds l hok p hp
  have hc : p.cents = centsOf (JSNum.fin q) := by
    rw [hfields.1, hq]
  have hround : roundTiesAway (|q| * 100) = ⌊|q| * 100 + 1 / 2⌋ := by
    unfold roundTiesAway
    rw [if_pos (by positivity)]
  have hkey : p.cents = JSNum.fin ((roundTiesAway (|q| * 100) % 100 : ℤ) : ℚ) := by
    rw [hc, centsOf_fin, hround]
  have h0 : 0 ≤ roundTiesAway (|q| * 100) % 100 := by omega
  have h99 : roundTiesAway (|q| * 100) % 100 ≤ 99 := by omega
  exact ⟨hkey, h0, h99, ⟨roundTiesAway (|q| * 100) % 100, hkey, h0, h99⟩⟩

/-- C2 witness: the amended statement applied to a one-record run with
amount 10.01, whose cent key is 1. -/
theorem C2_centKey_amended_witness :
    (⟨JSDate.valid 0, JSNum.fin (1001 / 100), none, none, JSNum.fin 1, naoMapeado, false, false⟩
        : ProcessedDonation).cents =
      JSNum.fin ((roundTiesAway (|(1001 / 100 : ℚ)| * 100) % 100 : ℤ) : ℚ)
    ∧ 0 ≤ roundTiesAway (|(1001 / 100 : ℚ)| * 100) % 100
    ∧ roundTiesAway (|(1001 / 100 : ℚ)| * 100) % 100 ≤ 99
    ∧ centKeyInRange (⟨JSDate.valid 0, JSNum.fin (1001 / 100), none, none, JSNum.fin 1,
        naoMapeado, false, false⟩ : ProcessedDonation).cents :=
  C2_centKey_amended [] [⟨JSDate.valid 0, JSNum.fin (1001 / 100), none, none⟩]
    [⟨JSDate.valid 0, JSNum.fin (1001 / 100), none, none, JSNum.fin 1, naoMapeado, false, false⟩]
    ⟨JSDate.valid 0, JSNum.fin (1001 / 100), none, none, JSNum.fin 1, naoMapeado, false, false⟩
    (1001 / 100) (by with_unfolding_all rfl) (List.mem_singleton.mpr rfl) rfl

theorem processGo_dup_iff (ms : List ChurchMapping) (seen : List String)
    (ds : List RawDonation) (l : List ProcessedDonation)
    (h : processGo ms seen ds = Except.ok l) (i : Nat) (hi : i < l.length) :
    (l.get ⟨i, hi⟩).isDuplicate = true
      ↔ (fingerprint (l.get ⟨i, hi⟩) ∈ seen
         ∨ ∃ p ∈ l.take i, fingerprint p = fingerprint (l.get ⟨i, hi⟩)) := by
  induction ds generalizing seen l i with
  | nil =>
    rw [processGo_nil] at h
    have hl : ([] : List ProcessedDonation) = l := (Except.ok.injEq _ _).mp h
    rw [← hl] at hi
    exact absurd hi (by simp)
  | cons d tl ih =>
    cases hd : d.date with
    | invalid =>
      rw [processGo_cons_invalid ms seen d tl hd] at h
      exact absurd h (by simp)
    | valid t =>
      rw [processGo_cons_valid ms seen d tl t hd] at h
      cases hrec : processGo ms
          (fingerprintParts (isoDayOfDays (Int.fdiv t 86400000)) d.amount d.donorName d.description
            :: seen) tl with
      | error e =>
        rw [hrec] at h
        exact absurd h (by simp)
      | ok rest =>
        rw [hrec] at h
        simp only [Except.ok.injEq] at h
        subst h
        have hfp : fingerprint (⟨d.date, d.amount, d.donorName, d.description, centsOf d.amount,
            jsOrChurch (mapGet ms (centsOf d.amount)),
            seen.contains (fingerprintParts (isoDayOfDays (Int.fdiv t 86400000)) d.amount
              d.donorName d.description),
            d.amount.ltZero⟩ : ProcessedDonation) =
            fingerprintParts (isoDayOfDays (Int.fdiv t 86400000)) d.amount d.donorName
              d.description := by
          simp only [fingerprint, hd]
        cases i with
        | zero =>
          simp only [List.get, List.take_zero]
          rw [hfp]
          constructor
          · intro hcon
            exact Or.inl (List.elem_iff.mp hcon)
          · intro hmem
            rcases hmem with hmem | hmem
            · exact List.elem_iff.mpr hmem
            · obtain ⟨p, hp, -⟩ := hmem
              exact absurd hp (by simp)
        | succ j =>
          have hj : j < rest.length := by
            simpa using hi
          have hget : ((⟨d.date, d.amount, d.donorName, d.description, centsOf d.amount,
              jsOrChurch (mapGet ms (centsOf d.amount)),
              seen.contains (fingerprintParts (isoDayOfDays (Int.fdiv t 86400000)) d.amount
                d.donorName d.description),
              d.amount.ltZero⟩ : ProcessedDonation) :: rest).get ⟨j + 1, hi⟩ =
              rest.get ⟨j, hj⟩ := rfl
          rw [hget]
          have := ih _ rest hrec j hj
          rw [this]
          simp only [List.take_succ_cons, List.mem_cons, List.mem_cons]
          constructor
          · rintro ((hk | hs) | hex)
            · exact Or.inr ⟨_, Or.inl rfl, by rw [hfp, ← hk]⟩
            · exact Or.inl hs
            · obtain ⟨p, hp, hpe⟩ := hex
              exact Or.inr ⟨p, Or.inr hp, hpe⟩
          · rintro (hs | ⟨p, hp | hp, hpe⟩)
            · exact Or.inl (Or.inr hs)
            · refine Or.inl (Or.inl ?_)
              rw [hp] at hpe
              rw [← hpe, hfp]
            · exact Or.inr ⟨p, hp, hpe⟩

/-- C3 amended: a record is flagged as a duplicate exactly when an earlier
record of the same run has an equal fingerprint string, the fingerprint
being the underscore-join of the ISO day, the amount's text rendering, the
donor text and the description text; the first record with a given
fingerprint string is never flagged.  Identical four fields still imply an
equal fingerprint, but distinct field tuples can collide when the donor or
description contains the `_` separator, so a fingerprint match does not
imply identical fields. -/
theorem C3_duplicate_iff_amended (ms : List ChurchMapping) (ds : List RawDonation)
    (l : List ProcessedDonation) (i : Nat)
    (hok : processDonations ms ds = Except.ok l) (hi : i < l.length) :
    (l.get ⟨i, hi⟩).isDuplicate = true
      ↔ ∃ p ∈ l.take i, fingerprint p = fingerprint (l.get ⟨i, hi⟩) := by
  have h := processGo_dup_iff ms [] ds l hok i hi
  simpa using h

/-- C3 witness: the amended statement applied to a one-record run — the
first (and only) record is not flagged, and no earlier record exists. -/
theorem C3_duplicate_iff_amended_witness :
    ((⟨JSDate.valid 0, JSNum.fin 1, none, none, JSNum.fin 0, naoMapeado, false, false⟩
        : ProcessedDonation).isDuplicate = true
      ↔ ∃ p ∈ ([] : List ProcessedDonation),
          fingerprint p = fingerprint (⟨JSDate.valid 0, JSNum.fin 1, none, none, JSNum.fin 0,
            naoMapeado, false, false⟩ : ProcessedDonation)) :=
  C3_duplicate_iff_amended [] [⟨JSDate.valid 0, JSNum.fin 1, none, none⟩]
    [⟨JSDate.valid 0, JSNum.fin 1, none, none, JSNum.fin 0, naoMapeado, false, false⟩] 0
    (by with_unfolding_all rfl) (Nat.zero_lt_one)

theorem mem_insertSummary (x y : ChurchSummary) (l : List ChurchSummary) :
    x ∈ insertSummary y l ↔ x = y ∨ x ∈ l := by
  induction l with
  | nil => simp [insertSummary]
  | cons h t ih =>
    unfold insertSummary
    split
    · simp only [List.mem_cons, ih]
      tauto
    · simp only [List.mem_cons]

theorem mem_sortSummaries (x : ChurchSummary) (l : List ChurchSummary) :
    x ∈ sortSummaries l ↔ x ∈ l := by
  induction l with
  | nil => simp [sortSummaries]
  | cons h t ih =>
    unfold sortSummaries
    rw [mem_insertSummary, ih]
    exact (List.mem_cons).symm

theorem upsertChurch_name_pred (P : String → Prop) (name : String) (amt cents : JSNum)
    (acc : List ChurchAcc) (hacc : ∀ e ∈ acc, P e.churchName) (hn : P name) :
    ∀ e ∈ upsertChurch name amt cents acc, P e.churchName := by
  induction acc with
  | nil =>
    intro e he
    simp only [upsertChurch, List.mem_singleton] at he
    rw [he]
    exact hn
  | cons a t ih =>
    intro e he
    unfold upsertChurch at he
    split at he
    · rcases List.mem_cons.mp he with h1 | h1
      · rw [h1]
        exact hacc a (List.mem_cons_self a t)
      · exact hacc e (List.mem_cons_of_mem a h1)
    · rcases List.mem_cons.mp he with h1 | h1
      · rw [h1]
        exact hacc a (List.mem_cons_self a t)
      · exact ih (fun e' he' => hacc e' (List.mem_cons_of_mem a he')) e h1

theorem summaryFold_no_sentinel (ds : List ProcessedDonation) :
    ∀ acc, (∀ e ∈ acc, e.churchName ≠ naoMapeado) →
      ∀ e ∈ summaryFold acc ds, e.churchName ≠ naoMapeado := by
  induction ds with
  | nil =>
    intro acc hacc e he
    exact hacc e he
  | cons d tl ih =>
    intro acc hacc e he
    rw [show summaryFold acc (d :: tl) =
        (if d.assignedChurch == naoMapeado then summaryFold acc tl
         else summaryFold (upsertChurch d.assignedChurch d.amount.abs d.cents acc) tl) from rfl]
      at he
    split at he
    · exact ih acc hacc e he
    · next hne =>
      have hname : d.assignedChurch ≠ naoMapeado := by
        intro hcon
        exact hne (by rw [hcon]; simp)
      exact ih _ (upsertChurch_name_pred (fun s => s ≠ naoMapeado) d.assignedChurch
        d.amount.abs d.cents acc hacc hname) e he

theorem generateSummary_no_sentinel (ds : List ProcessedDonation) :
    ∀ s ∈ generateSummary ds, s.churchName ≠ naoMapeado := by
  intro s hs
  unfold generateSummary at hs
  rw [mem_sortSummaries] at hs
  unfold summaryRows at hs
  obtain ⟨e, he, hse⟩ := List.mem_map.mp hs
  rw [← hse]
  exact summaryFold_no_sentinel ds [] (by simp) e he

/-- C9: when the caller's mapping assigns some cent key the bucket name that
is exactly the sentinel string, every record classified to that key gets
`assignedChurch = "Não mapeado"`, lands in the unmapped partition and not
in the mapped one, appears in no summary row, is counted by
`stats.unmappedCount` (which is the size of the unmapped partition), and is
indistinguishable from a record whose cent key has no mapping at all
(which receives the same sentinel name). -/
theorem C9_sentinel_mapping (ms : List ChurchMapping) (ds : List RawDonation)
    (l : List ProcessedDonation) (p : ProcessedDonation)
    (hok : processDonations ms ds = Except.ok l) (hp : p ∈ l)
    (hmap : mapGet ms p.cents = some naoMapeado) :
    p.assignedChurch = naoMapeado
    ∧ p ∈ (separateByMapping l).2
    ∧ p ∉ (separateByMapping l).1
    ∧ (∀ s ∈ generateSummary (separateByMapping l).1, s.churchName ≠ p.assignedChurch)
    ∧ (generateStats l (separateByMapping l).2).unmappedCount = (separateByMapping l).2.length
    ∧ (∀ r ∈ l, mapGet ms r.cents = none → r.assignedChurch = p.assignedChurch) := by
  have hfields := processGo_ok_fields ms [] ds l hok p hp
  have hchurch : p.assignedChurch = naoMapeado := by
    rw [hfields.2.1, ← hfields.1, hmap]
    decide
  refine ⟨hchurch, ?_, ?_, ?_, rfl, ?_⟩
  · exact List.mem_filter.mpr ⟨hp, by rw [hchurch]; simp⟩
  · intro hcon
    have := (List.mem_filter.mp hcon).2
    rw [hchurch] at this
    simp at this
  · intro s hs
    rw [hchurch]
    exact generateSummary_no_sentinel _ s hs
  · intro r hr hnone
    have hrf := processGo_ok_fields ms [] ds l hok r hr
    rw [hrf.2.1, ← hrf.1, hnone, hchurch]
    rfl


/-- C9 witness: a mapping whose only entry names the bucket with the
sentinel string itself, applied to a one-record run whose record has cent
key 1. -/
theorem C9_sentinel_mapping_witness :
    (⟨JSDate.valid 0, JSNum.fin (1 / 100), none, none, JSNum.fin 1, naoMapeado, false, false⟩
        : ProcessedDonation).assignedChurch = naoMapeado
    ∧ (⟨JSDate.valid 0, JSNum.fin (1 / 100), none, none, JSNum.fin 1, naoMapeado, false, false⟩
        : ProcessedDonation) ∈
      (separateByMapping [⟨JSDate.valid 0, JSNum.fin (1 / 100), none, none, JSNum.fin 1,
        naoMapeado, false, false⟩]).2
    ∧ (⟨JSDate.valid 0, JSNum.fin (1 / 100), none, none, JSNum.fin 1, naoMapeado, false, false⟩
        : ProcessedDonation) ∉
      (separateByMapping [⟨JSDate.valid 0, JSNum.fin (1 / 100), none, none, JSNum.fin 1,
        naoMapeado, false, false⟩]).1
    ∧ (∀ s ∈ generateSummary (separateByMapping [⟨JSDate.valid 0, JSNum.fin (1 / 100), none,
        none, JSNum.fin 1, naoMapeado, false, false⟩]).1,
        s.churchName ≠ (⟨JSDate.valid 0, JSNum.fin (1 / 100), none, none, JSNum.fin 1,
          naoMapeado, false, false⟩ : ProcessedDonation).assignedChurch)
    ∧ (generateStats [⟨JSDate.valid 0, JSNum.fin (1 / 100), none, none, JSNum.fin 1,
          naoMapeado, false, false⟩]
        (separateByMapping [⟨JSDate.valid 0, JSNum.fin (1 / 100), none, none, JSNum.fin 1,
          naoMapeado, false, false⟩]).2).unmappedCount =
      (separateByMapping [⟨JSDate.valid 0, JSNum.fin (1 / 100), none, none, JSNum.fin 1,
        naoMapeado, false, false⟩]).2.length
    ∧ (∀ r ∈ [(⟨JSDate.valid 0, JSNum.fin (1 / 100), none, none, JSNum.fin 1, naoMapeado,
          false, false⟩ : ProcessedDonation)],
        mapGet [⟨1, naoMapeado⟩] r.cents = none →
          r.assignedChurch = (⟨JSDate.valid 0, JSNum.fin (1 / 100), none, none, JSNum.fin 1,
            naoMapeado, false, false⟩ : ProcessedDonation).assignedChurch) :=
  C9_sentinel_mapping [⟨1, naoMapeado⟩] [⟨JSDate.valid 0, JSNum.fin (1 / 100), none, none⟩]
    [⟨JSDate.valid 0, JSNum.fin (1 / 100), none, none, JSNum.fin 1, naoMapeado, false, false⟩]
    ⟨JSDate.valid 0, JSNum.fin (1 / 100), none, none, JSNum.fin 1, naoMapeado, false, false⟩
    (by with_unfolding_all rfl) (List.mem_singleton.mpr rfl) (by with_unfolding_all rfl)

theorem insertSummary_perm (x : ChurchSummary) (l : List ChurchSummary) :
    List.Perm (insertSummary x l) (x :: l) := by
  induction l with
  | nil => exact List.Perm.refl _
  | cons h t ih =>
    unfold insertSummary
    split
    · exact (ih.cons h).trans (List.Perm.swap x h t)
    · exact List.Perm.refl _

theorem sortSummaries_perm (l : List ChurchSummary) : List.Perm (sortSummaries l) l := by
  induction l with
  | nil => exact List.Perm.refl _
  | cons h t ih =>
    unfold sortSummaries
    exact (insertSummary_perm h (sortSummaries t)).trans (ih.cons h)

theorem entTotal_nil (n : String) : entTotal [] n = 0 := rfl

theorem entTotal_cons_pos (e : ChurchAcc) (es : List ChurchAcc) (n : String)
    (h : (e.churchName == n) = true) : entTotal (e :: es) n = e.total := by
  unfold entTotal
  simp only [List.find?]
  rw [h]

theorem entTotal_cons_neg (e : ChurchAcc) (es : List ChurchAcc) (n : String)
    (h : (e.churchName == n) = false) : entTotal (e :: es) n = entTotal es n := by
  unfold entTotal
  simp only [List.find?]
  rw [h]

theorem entTotal_upsert (name : String) (amt cents : JSNum) (acc : List ChurchAcc)
    (n : String) :
    entTotal (upsertChurch name amt cents acc) n =
      if n = name then entTotal acc n + amt else entTotal acc n := by
  induction acc with
  | nil =>
    show entTotal [⟨name, JSNum.add (JSNum.fin 0) amt, 0 + 1, cents⟩] n = _
    by_cases h : n = name
    · rw [if_pos h, entTotal_cons_pos _ _ _ (by simp [h]), entTotal_nil]
      rfl
    · rw [if_neg h, entTotal_cons_neg _ _ _ (by
        simp only [beq_eq_false_iff_ne, ne_eq]
        exact fun hc => h hc.symm)]
  | cons e es ih =>
    show entTotal (if e.churchName == name then
        ⟨e.churchName, JSNum.add e.total amt, e.count + 1, e.cents⟩ :: es
      else e :: upsertChurch name amt cents es) n = _
    by_cases hb : (e.churchName == name) = true
    · rw [if_pos hb]
      have hen : e.churchName = name := by simpa using hb
      by_cases h : n = name
      · rw [if_pos h,
          entTotal_cons_pos ⟨e.churchName, JSNum.add e.total amt, e.count + 1, e.cents⟩ es _
            (by simp [hen, h]),
          entTotal_cons_pos e es _ (by simp [hen, h])]
        rfl
      · have hf : (e.churchName == n) = false := by
          simp only [beq_eq_false_iff_ne, ne_eq, hen]
          exact fun hc => h hc.symm
        rw [if_neg h,
          entTotal_cons_neg ⟨e.churchName, JSNum.add e.total amt, e.count + 1, e.cents⟩ es _ hf,
          entTotal_cons_neg e es _ hf]
    · rw [if_neg hb]
      by_cases hh : (e.churchName == n) = true
      · have hen : e.churchName = n := by simpa using hh
        have hnn : ¬ n = name := by
          rw [← hen]
          simpa using hb
        rw [if_neg hnn, entTotal_cons_pos e (upsertChurch name amt cents es) _ hh,
          entTotal_cons_pos e es _ hh]
      · have hf : (e.churchName == n) = false := by simpa using hh
        rw [entTotal_cons_neg e (upsertChurch name amt cents es) _ hf,
          entTotal_cons_neg e es _ hf, ih]

theorem summaryFold_step (acc : List ChurchAcc) (d : ProcessedDonation)
    (tl : List ProcessedDonation) :
    summaryFold acc (d :: tl) =
      (if d.assignedChurch == naoMapeado then summaryFold acc tl
       else summaryFold (upsertChurch d.assignedChurch d.amount.abs d.cents acc) tl) := rfl

theorem groupSum_nil (n : String) : groupSum n [] = 0 := rfl

theorem groupSum_cons (n : String) (d : ProcessedDonation) (tl : List ProcessedDonation) :
    groupSum n (d :: tl) =
      if d.assignedChurch == n then d.amount.abs + groupSum n tl else groupSum n tl := by
  unfold groupSum
  rw [List.filter_cons]
  split
  · rw [List.map_cons, List.sum_cons]
  · rfl

theorem entTotal_summaryFold (ds : List ProcessedDonation) (acc : List ChurchAcc)
    (n : String) (hn : n ≠ naoMapeado) :
    entTotal (summaryFold acc ds) n = entTotal acc n + groupSum n ds := by
  induction ds generalizing acc with
  | nil =>
    rw [show summaryFold acc [] = acc from rfl, groupSum_nil, add_zero]
  | cons d tl ih =>
    rw [summaryFold_step, groupSum_cons]
    split
    · next hsent =>
      have hdsent : d.assignedChurch = naoMapeado := by simpa using hsent
      have hdn : (d.assignedChurch == n) = false := by
        simp only [beq_eq_false_iff_ne, ne_eq, hdsent]
        exact fun hc => hn hc.symm
      rw [hdn]
      simp only [Bool.false_eq_true, if_false]
      exact ih acc
    · rw [ih _, entTotal_upsert]
      by_cases hdn : d.assignedChurch = n
      · rw [if_pos hdn.symm, show (d.assignedChurch == n) = true from by simp [hdn]]
        simp only [if_true]
        rw [add_assoc]
      · rw [if_neg (fun hc => hdn hc.symm),
          show (d.assignedChurch == n) = false from by simp [hdn]]
        simp

theorem accNames_upsert_mem (name : String) (amt cents : JSNum) (acc : List ChurchAcc)
    (h : name ∈ accNames acc) :
    accNames (upsertChurch name amt cents acc) = accNames acc := by
  induction acc with
  | nil => exact absurd h (by simp [accNames])
  | cons e es ih =>
    unfold upsertChurch
    split
    · rfl
    · next hne =>
      have : name ∈ accNames es := by
        rcases (by simpa [accNames] using h : name = e.churchName ∨ name ∈ accNames es) with
          h1 | h1
        · exact absurd h1.symm (by simpa using hne)
        · exact h1
      show e.churchName :: accNames (upsertChurch name amt cents es) = _
      rw [ih this]
      rfl

theorem accNames_upsert_notmem (name : String) (amt cents : JSNum) (acc : List ChurchAcc)
    (h : name ∉ accNames acc) :
    accNames (upsertChurch name amt cents acc) = accNames acc ++ [name] := by
  induction acc with
  | nil => rfl
  | cons e es ih =>
    unfold upsertChurch
    split
    · next heq =>
      have h2 : e.churchName = name := by simpa using heq
      refine absurd ?_ h
      show name ∈ e.churchName :: accNames es
      rw [h2]
      exact List.mem_cons_self _ _
    · have hes : name ∉ accNames es := fun hc => h (List.mem_cons_of_mem _ hc)
      show e.churchName :: accNames (upsertChurch name amt cents es) = _
      rw [ih hes]
      rfl

theorem summaryFold_nodup (ds : List ProcessedDonation) (acc : List ChurchAcc)
    (h : (accNames acc).Nodup) : (accNames (summaryFold acc ds)).Nodup := by
  induction ds generalizing acc with
  | nil => exact h
  | cons d tl ih =>
    rw [summaryFold_step]
    split
    · exact ih acc h
    · by_cases hmem : d.assignedChurch ∈ accNames acc
      · exact ih _ (by rw [accNames_upsert_mem _ _ _ _ hmem]; exact h)
      · refine ih _ ?_
        rw [accNames_upsert_notmem _ _ _ _ hmem]
        simp [List.nodup_append, h, hmem]

theorem accNames_summaryFold_mono (ds : List ProcessedDonation) (acc : List ChurchAcc)
    (n : String) (h : n ∈ accNames acc) : n ∈ accNames (summaryFold acc ds) := by
  induction ds generalizing acc with
  | nil => exact h
  | cons d tl ih =>
    rw [summaryFold_step]
    split
    · exact ih acc h
    · refine ih _ ?_
      by_cases hmem : d.assignedChurch ∈ accNames acc
      · rw [accNames_upsert_mem _ _ _ _ hmem]
        exact h
      · rw [accNames_upsert_notmem _ _ _ _ hmem]
        exact List.mem_append_left _ h

theorem mem_accNames_upsert (name : String) (amt cents : JSNum) (acc : List ChurchAcc) :
    name ∈ accNames (upsertChurch name amt cents acc) := by
  by_cases hmem : name ∈ accNames acc
  · rw [accNames_upsert_mem _ _ _ _ hmem]
    exact hmem
  · rw [accNames_upsert_notmem _ _ _ _ hmem]
    simp

theorem summaryFold_covers (ds : List ProcessedDonation) (acc : List ChurchAcc)
    (d : ProcessedDonation) (hd : d ∈ ds) (hns : d.assignedChurch ≠ naoMapeado) :
    d.assignedChurch ∈ accNames (summaryFold acc ds) := by
  induction ds generalizing acc with
  | nil => exact absurd hd (by simp)
  | cons e tl ih =>
    rw [summaryFold_step]
    rcases List.mem_cons.mp hd with h1 | h1
    · rw [← h1]
      rw [show (d.assignedChurch == naoMapeado) = false from by simp [hns]]
      simp only [Bool.false_eq_true, if_false]
      exact accNames_summaryFold_mono tl _ _ (mem_accNames_upsert _ _ _ _)
    · split
      · exact ih acc h1
      · exact ih _ h1

theorem entTotal_of_mem (l : List ChurchAcc) (hnd : (accNames l).Nodup) (e : ChurchAcc)
    (he : e ∈ l) : entTotal l e.churchName = e.total := by
  induction l with
  | nil => exact absurd he (by simp)
  | cons h t ih =>
    rcases List.mem_cons.mp he with h1 | h1
    · rw [h1]
      exact entTotal_cons_pos _ _ _ (by simp)
    · have hnd' := hnd
      rw [show accNames (h :: t) = h.churchName :: accNames t from rfl,
        List.nodup_cons] at hnd'
      have hne : (h.churchName == e.churchName) = false := by
        simp only [beq_eq_false_iff_ne, ne_eq]
        intro hc
        exact hnd'.1 (by rw [hc]; exact List.mem_map_of_mem _ h1)
      rw [entTotal_cons_neg _ _ _ hne]
      exact ih hnd'.2 h1

theorem sum_if_single (names : List String) (hnd : names.Nodup) (a : String)
    (ha : a ∈ names) (v : JSNum) (g : String → JSNum) :
    (names.map (fun n => if n = a then v + g n else g n)).sum = v + (names.map g).sum := by
  induction names with
  | nil => exact absurd ha (by simp)
  | cons m ms ih =>
    rw [List.nodup_cons] at hnd
    rw [List.map_cons, List.sum_cons, List.map_cons, List.sum_cons]
    by_cases hma : m = a
    · rw [if_pos hma]
      have : ms.map (fun n => if n = a then v + g n else g n) = ms.map g := by
        apply List.map_congr_left
        intro x hx
        rw [if_neg]
        intro hc
        rw [hc, ← hma] at hx
        exact hnd.1 hx
      rw [this, add_assoc]
    · rw [if_neg hma]
      have ha' : a ∈ ms := by
        rcases List.mem_cons.mp ha with h1 | h1
        · exact absurd h1.symm hma
        · exact h1
      rw [ih hnd.2 ha', add_left_comm]

theorem groupSum_partition (names : List String) (hnd : names.Nodup)
    (ds : List ProcessedDonation) (hcov : ∀ d ∈ ds, d.assignedChurch ∈ names) :
    (names.map (fun n => groupSum n ds)).sum = sumAbs ds := by
  induction ds with
  | nil =>
    rw [show sumAbs [] = 0 from rfl]
    apply List.sum_eq_zero
    intro x hx
    obtain ⟨n, -, hn⟩ := List.mem_map.mp hx
    rw [← hn, groupSum_nil]
  | cons d tl ih =>
    have hmap : names.map (fun n => groupSum n (d :: tl)) =
        names.map (fun n => if n = d.assignedChurch then d.amount.abs + groupSum n tl
          else groupSum n tl) := by
      apply List.map_congr_left
      intro n hn
      rw [groupSum_cons]
      by_cases h : d.assignedChurch = n
      · rw [if_pos (by simp [h]), if_pos h.symm]
      · rw [if_neg (by simp [h]), if_neg (fun hc => h hc.symm)]
    rw [hmap, sum_if_single names hnd d.assignedChurch (hcov d (List.mem_cons_self d tl))
      d.amount.abs (fun n => groupSum n tl),
      ih (fun d' hd' => hcov d' (List.mem_cons_of_mem d hd'))]
    rfl

/-- C6: over a mapped record sequence (no sentinel buckets), every summary
row's total equals the sum of the absolute amounts of exactly the records
whose bucket equals that row's bucket name, and the totals of all summary
rows sum to the sum of the absolute amounts of all records. -/
theorem C6_summary_totals (ds : List ProcessedDonation)
    (hmapped : ∀ d ∈ ds, d.assignedChurch ≠ naoMapeado) :
    (∀ s ∈ generateSummary ds, s.total = groupSum s.churchName ds)
    ∧ ((generateSummary ds).map (fun s => s.total)).sum = sumAbs ds := by
  have hnodup : (accNames (summaryFold [] ds)).Nodup :=
    summaryFold_nodup ds [] (by simp [accNames])
  have hrowTotal : ∀ e ∈ summaryFold [] ds, e.total = groupSum e.churchName ds := by
    intro e he
    have hns : e.churchName ≠ naoMapeado := summaryFold_no_sentinel ds [] (by simp) e he
    have h1 := entTotal_of_mem _ hnodup e he
    rw [entTotal_summaryFold ds [] e.churchName hns, entTotal_nil, zero_add] at h1
    exact h1.symm
  constructor
  · intro s hs
    rw [generateSummary, mem_sortSummaries] at hs
    obtain ⟨e, he, hse⟩ := List.mem_map.mp hs
    rw [← hse]
    show e.total = groupSum e.churchName ds
    exact hrowTotal e he
  · have hperm : List.Perm ((generateSummary ds).map (fun s => s.total))
        ((summaryRows ds).map (fun s => s.total)) :=
      (sortSummaries_perm (summaryRows ds)).map _
    rw [hperm.sum_eq, summaryRows, List.map_map]
    have hcongr : (summaryFold [] ds).map ((fun s => s.total) ∘ accToSummary) =
        (accNames (summaryFold [] ds)).map (fun n => groupSum n ds) := by
      rw [accNames, List.map_map]
      apply List.map_congr_left
      intro e he
      exact hrowTotal e he
    rw [hcongr,
      groupSum_partition _ hnodup ds (fun d hd => summaryFold_covers ds [] d hd (hmapped d hd))]

/-- C6 witness: the totals law applied to a two-record run over two buckets. -/
theorem C6_summary_totals_witness :
    (∀ s ∈ generateSummary
        [⟨JSDate.valid 0, JSNum.fin 5, none, none, JSNum.fin 0, "Alpha", false, false⟩,
         ⟨JSDate.valid 0, JSNum.fin 7, none, none, JSNum.fin 0, "Beta", false, false⟩],
      s.total = groupSum s.churchName
        [⟨JSDate.valid 0, JSNum.fin 5, none, none, JSNum.fin 0, "Alpha", false, false⟩,
         ⟨JSDate.valid 0, JSNum.fin 7, none, none, JSNum.fin 0, "Beta", false, false⟩])
    ∧ ((generateSummary
        [⟨JSDate.valid 0, JSNum.fin 5, none, none, JSNum.fin 0, "Alpha", false, false⟩,
         ⟨JSDate.valid 0, JSNum.fin 7, none, none, JSNum.fin 0, "Beta", false, false⟩]).map
          (fun s => s.total)).sum =
      sumAbs [⟨JSDate.valid 0, JSNum.fin 5, none, none, JSNum.fin 0, "Alpha", false, false⟩,
        ⟨JSDate.valid 0, JSNum.fin 7, none, none, JSNum.fin 0, "Beta", false, false⟩] :=
  C6_summary_totals
    [⟨JSDate.valid 0, JSNum.fin 5, none, none, JSNum.fin 0, "Alpha", false, false⟩,
     ⟨JSDate.valid 0, JSNum.fin 7, none, none, JSNum.fin 0, "Beta", false, false⟩]
    (by decide)

theorem subSelf_not_ltZero (x : JSNum) : (JSNum.sub x x).ltZero = false := by
  cases x <;> simp [JSNum.sub, JSNum.add, JSNum.neg, JSNum.ltZero]

theorem sortGT_total_eq (a b : ChurchSummary) (h : b.total = a.total) :
    sortGT a b = false := by
  unfold sortGT
  rw [h]
  exact subSelf_not_ltZero _

theorem ltZero_sub_asymm (x y : JSNum) (h : (JSNum.sub x y).ltZero = true) :
    (JSNum.sub y x).ltZero = false := by
  cases x <;> cases y <;> simp [JSNum.sub, JSNum.add, JSNum.neg, JSNum.ltZero] at h ⊢ <;>
    linarith

theorem sortGT_asymm (a b : ChurchSummary) (h : sortGT a b = true) :
    sortGT b a = false :=
  ltZero_sub_asymm b.total a.total h

theorem ltZero_sub_trans (a b c : JSNum) (ha : a ≠ JSNum.nan) (hb : b ≠ JSNum.nan)
    (hc : c ≠ JSNum.nan) (h1 : (JSNum.sub a b).ltZero = false)
    (h2 : (JSNum.sub b c).ltZero = false) : (JSNum.sub a c).ltZero = false := by
  cases a <;> cases b <;> cases c <;>
    simp [JSNum.sub, JSNum.add, JSNum.neg, JSNum.ltZero] at * <;> linarith

theorem insertSummary_pairwise (x : ChurchSummary) (l : List ChurchSummary)
    (hx : x.total ≠ JSNum.nan) (hl : ∀ s ∈ l, s.total ≠ JSNum.nan)
    (hp : l.Pairwise (fun a b => sortGT b a = false)) :
    (insertSummary x l).Pairwise (fun a b => sortGT b a = false) := by
  induction l with
  | nil => simp [insertSummary]
  | cons h t ih =>
    rw [List.pairwise_cons] at hp
    unfold insertSummary
    split
    · next hgt =>
      rw [List.pairwise_cons]
      constructor
      · intro y hy
        rcases (mem_insertSummary y x t).mp hy with h1 | h1
        · rw [h1]
          exact sortGT_asymm h x hgt
        · exact hp.1 y h1
      · exact ih (fun s hs => hl s (List.mem_cons_of_mem h hs)) hp.2
    · next hgt =>
      have hgtf : sortGT h x = false := by
        cases hv : sortGT h x
        · rfl
        · exact absurd hv hgt
      rw [List.pairwise_cons]
      constructor
      · intro y hy
        rcases List.mem_cons.mp hy with h1 | h1
        · rw [h1]
          exact hgtf
        · show (JSNum.sub x.total y.total).ltZero = false
          exact ltZero_sub_trans x.total h.total y.total hx
            (hl h (List.mem_cons_self h t)) (hl y (List.mem_cons_of_mem h h1)) hgtf (hp.1 y h1)
      · exact List.pairwise_cons.mpr hp

theorem sortSummaries_pairwise (l : List ChurchSummary)
    (hl : ∀ s ∈ l, s.total ≠ JSNum.nan) :
    (sortSummaries l).Pairwise (fun a b => sortGT b a = false) := by
  induction l with
  | nil => simp [sortSummaries]
  | cons h t ih =>
    unfold sortSummaries
    exact insertSummary_pairwise h (sortSummaries t) (hl h (List.mem_cons_self h t))
      (fun s hs => hl s (List.mem_cons_of_mem h ((mem_sortSummaries s t).mp hs)))
      (ih (fun s hs => hl s (List.mem_cons_of_mem h hs)))

theorem filter_insertSummary_total (t : JSNum) (x : ChurchSummary)
    (l : List ChurchSummary) :
    List.filter (fun s => s.total == t) (insertSummary x l) =
      (if x.total == t then x :: List.filter (fun s => s.total == t) l
       else List.filter (fun s => s.total == t) l) := by
  induction l with
  | nil =>
    show List.filter _ [x] = _
    rw [List.filter_cons]
  | cons h l' ih =>
    unfold insertSummary
    split
    · next hgt =>
      rw [List.filter_cons]
      cases hph : (h.total == t) with
      | true =>
        cases hpx : (x.total == t) with
        | true =>
          exfalso
          have h1 : h.total = t := by simpa using hph
          have h2 : x.total = t := by simpa using hpx
          have hf : sortGT h x = false := sortGT_total_eq h x (by rw [h1, h2])
          rw [hf] at hgt
          exact Bool.noConfusion hgt
        | false =>
          simp only [if_true]
          rw [ih, hpx]
          simp only [Bool.false_eq_true, if_false]
          rw [List.filter_cons, hph]
          simp only [if_true]
      | false =>
        simp only [Bool.false_eq_true, if_false]
        rw [ih, List.filter_cons, hph]
        simp only [Bool.false_eq_true, if_false]
    · rw [List.filter_cons, List.filter_cons]

theorem filter_sortSummaries_total (t : JSNum) (l : List ChurchSummary) :
    List.filter (fun s => s.total == t) (sortSummaries l) =
      List.filter (fun s => s.total == t) l := by
  induction l with
  | nil => rfl
  | cons h l' ih =>
    unfold sortSummaries
    rw [filter_insertSummary_total, List.filter_cons]
    cases hb : (h.total == t) with
    | true => rw [ih]
    | false =>
      simp only [Bool.false_eq_true, if_false]
      rw [ih]

theorem posJS_abs (x : JSNum) (hx : x ≠ JSNum.nan) : PosJS x.abs := by
  cases x <;> simp [JSNum.abs, PosJS] at *

theorem posJS_add (x y : JSNum) (hx : PosJS x) (hy : PosJS y) : PosJS (x + y) := by
  show PosJS (JSNum.add x y)
  cases x <;> cases y <;> simp [JSNum.add, PosJS] at *

theorem posJS_sum (l : List JSNum) (h : ∀ x ∈ l, PosJS x) : PosJS l.sum := by
  induction l with
  | nil =>
    show PosJS 0
    simp [PosJS]
  | cons a l' ih =>
    rw [List.sum_cons]
    exact posJS_add a l'.sum (h a (List.mem_cons_self a l'))
      (ih (fun x hx => h x (List.mem_cons_of_mem a hx)))

theorem summaryRows_total (ds : List ProcessedDonation) :
    ∀ s ∈ summaryRows ds, s.total = groupSum s.churchName ds := by
  intro s hs
  have hnodup : (accNames (summaryFold [] ds)).Nodup :=
    summaryFold_nodup ds [] (by simp [accNames])
  obtain ⟨e, he, hse⟩ := List.mem_map.mp hs
  have hns : e.churchName ≠ naoMapeado := summaryFold_no_sentinel ds [] (by simp) e he
  have h1 := entTotal_of_mem _ hnodup e he
  rw [entTotal_summaryFold ds [] e.churchName hns, entTotal_nil, zero_add] at h1
  rw [← hse]
  exact h1.symm

theorem contains_eq_false_of_not_mem (l : List String) (a : String) (h : a ∉ l) :
    l.contains a = false := by
  cases hv : l.contains a
  · rfl
  · exact absurd (List.elem_iff.mp hv) h

theorem contains_eq_true_of_mem (l : List String) (a : String) (h : a ∈ l) :
    l.contains a = true := List.elem_iff.mpr h

theorem firstAppearancesGo_congr (ds : List ProcessedDonation) (s1 s2 : List String)
    (h : ∀ x, x ∈ s1 ↔ x ∈ s2) :
    firstAppearancesGo s1 ds = firstAppearancesGo s2 ds := by
  induction ds generalizing s1 s2 with
  | nil => rfl
  | cons d tl ih =>
    unfold firstAppearancesGo
    have hc : s1.contains d.assignedChurch = s2.contains d.assignedChurch := by
      by_cases hm : d.assignedChurch ∈ s2
      · rw [contains_eq_true_of_mem _ _ hm, contains_eq_true_of_mem _ _ ((h _).mpr hm)]
      · rw [contains_eq_false_of_not_mem _ _ hm,
          contains_eq_false_of_not_mem _ _ (fun hc1 => hm ((h _).mp hc1))]
    rw [hc]
    split
    · exact ih s1 s2 h
    · rw [ih (d.assignedChurch :: s1) (d.assignedChurch :: s2) (by
        intro x
        simp only [List.mem_cons, h x])]

theorem accNames_summaryFold_firstApp (ds : List ProcessedDonation) (acc : List ChurchAcc) :
    accNames (summaryFold acc ds) = accNames acc ++ firstAppearancesGo (accNames acc) ds := by
  induction ds generalizing acc with
  | nil => simp [firstAppearancesGo, summaryFold]
  | cons d tl ih =>
    rw [summaryFold_step]
    show _ = accNames acc ++
      (if d.assignedChurch == naoMapeado || (accNames acc).contains d.assignedChurch then
        firstAppearancesGo (accNames acc) tl
      else d.assignedChurch :: firstAppearancesGo (d.assignedChurch :: accNames acc) tl)
    by_cases hs : (d.assignedChurch == naoMapeado) = true
    · rw [if_pos hs, if_pos (by rw [hs]; rfl)]
      exact ih acc
    · rw [if_neg hs]
      have hs' : (d.assignedChurch == naoMapeado) = false := by
        cases hv : (d.assignedChurch == naoMapeado)
        · rfl
        · exact absurd hv hs
      by_cases hmem : d.assignedChurch ∈ accNames acc
      · rw [if_pos (by rw [hs', contains_eq_true_of_mem _ _ hmem]; rfl)]
        rw [ih, accNames_upsert_mem _ _ _ _ hmem]
      · rw [if_neg (by rw [hs', contains_eq_false_of_not_mem _ _ hmem]; exact Bool.false_ne_true)]
        rw [ih, accNames_upsert_notmem _ _ _ _ hmem, List.append_assoc,
          List.singleton_append]
        congr 2
        exact firstAppearancesGo_congr tl _ _ (by
          intro x
          simp only [List.mem_append, List.mem_singleton, List.mem_cons]
          tauto)

/-- C7: the summary rows are sorted by total in non-increasing order with
respect to the comparator (no later row must sort strictly before an
earlier one); rows with equal totals keep exactly the pre-sort order; and
the pre-sort row order is the first-appearance order of the buckets in the
record sequence.  The hypothesis excludes `NaN` amounts, which row
validation guarantees for every run (an inconsistent `NaN` comparator
would make the sort order meaningless, in the model as in JavaScript). -/
theorem C7_summary_sorted (ds : List ProcessedDonation)
    (hnn : ∀ d ∈ ds, d.amount ≠ JSNum.nan) :
    (generateSummary ds).Pairwise (fun a b => sortGT b a = false)
    ∧ (∀ t : JSNum, ((generateSummary ds).filter (fun s => s.total == t)).map
          (fun s => s.churchName) =
        ((summaryRows ds).filter (fun s => s.total == t)).map (fun s => s.churchName))
    ∧ (summaryRows ds).map (fun s => s.churchName) = firstAppearances ds := by
  refine ⟨?_, ?_, ?_⟩
  · show (sortSummaries (summaryRows ds)).Pairwise _
    apply sortSummaries_pairwise
    intro s hs
    rw [summaryRows_total ds s hs]
    refine (posJS_sum _ ?_).1
    intro x hx
    obtain ⟨d, hd, hdx⟩ := List.mem_map.mp hx
    rw [← hdx]
    exact posJS_abs _ (hnn d (List.mem_filter.mp hd).1)
  · intro t
    show (List.filter _ (sortSummaries (summaryRows ds))).map _ = _
    rw [filter_sortSummaries_total]
  · show ((summaryFold [] ds).map accToSummary).map (fun s => s.churchName) = _
    rw [List.map_map]
    have : ((fun s : ChurchSummary => s.churchName) ∘ accToSummary) =
        fun e : ChurchAcc => e.churchName := rfl
    rw [this]
    exact accNames_summaryFold_firstApp ds []

/-- C7 witness: the sort and stability law applied to a two-record run over
two buckets. -/
theorem C7_summary_sorted_witness :
    (generateSummary
        [⟨JSDate.valid 0, JSNum.fin 5, none, none, JSNum.fin 0, "Alpha", false, false⟩,
         ⟨JSDate.valid 0, JSNum.fin 7, none, none, JSNum.fin 0, "Beta", false, false⟩]).Pairwise
      (fun a b => sortGT b a = false)
    ∧ (∀ t : JSNum, ((generateSummary
        [⟨JSDate.valid 0, JSNum.fin 5, none, none, JSNum.fin 0, "Alpha", false, false⟩,
         ⟨JSDate.valid 0, JSNum.fin 7, none, none, JSNum.fin 0, "Beta", false, false⟩]).filter
          (fun s => s.total == t)).map (fun s => s.churchName) =
        ((summaryRows
          [⟨JSDate.valid 0, JSNum.fin 5, none, none, JSNum.fin 0, "Alpha", false, false⟩,
           ⟨JSDate.valid 0, JSNum.fin 7, none, none, JSNum.fin 0, "Beta", false, false⟩]).filter
          (fun s => s.total == t)).map (fun s => s.churchName))
    ∧ (summaryRows
        [⟨JSDate.valid 0, JSNum.fin 5, none, none, JSNum.fin 0, "Alpha", false, false⟩,
         ⟨JSDate.valid 0, JSNum.fin 7, none, none, JSNum.fin 0, "Beta", false, false⟩]).map
        (fun s => s.churchName) =
      firstAppearances
        [⟨JSDate.valid 0, JSNum.fin 5, none, none, JSNum.fin 0, "Alpha", false, false⟩,
         ⟨JSDate.valid 0, JSNum.fin 7, none, none, JSNum.fin 0, "Beta", false, false⟩] :=
  C7_summary_sorted
    [⟨JSDate.valid 0, JSNum.fin 5, none, none, JSNum.fin 0, "Alpha", false, false⟩,
     ⟨JSDate.valid 0, JSNum.fin 7, none, none, JSNum.fin 0, "Beta", false, false⟩]
    (by decide)

theorem separateByMapping_fst_no_sentinel (l : List ProcessedDonation) :
    ∀ d ∈ (separateByMapping l).1, d.assignedChurch ≠ naoMapeado := by
  intro d hd
  have h := (List.mem_filter.mp hd).2
  simpa using h

theorem parseRows_amount_ne_nan (fallback : String → Option Int) (dIdx aIdx : Nat)
    (donIdx descIdx : Option Nat) (rows : List (List Cell)) :
    ∀ r ∈ parseRows fallback dIdx aIdx donIdx descIdx rows, r.amount ≠ JSNum.nan := by
  induction rows with
  | nil =>
    intro r hr
    exact absurd hr (by simp [parseRows])
  | cons row rest ih =>
    intro r hr
    unfold parseRows at hr
    split at hr
    · exact ih r hr
    · cases hpd : parseDate fallback (row.getD dIdx Cell.empty) with
      | none =>
        rw [hpd] at hr
        exact ih r hr
      | some dv =>
        rw [hpd] at hr
        simp only [] at hr
        split at hr
        · exact ih r hr
        · next hnn =>
          rcases List.mem_cons.mp hr with h1 | h1
          · rw [h1]
            exact hnn
          · exact ih r h1

theorem processGo_amount_from_input (ms : List ChurchMapping) (seen : List String)
    (ds : List RawDonation) (l : List ProcessedDonation)
    (h : processGo ms seen ds = Except.ok l) :
    ∀ p ∈ l, ∃ d ∈ ds, p.amount = d.amount := by
  induction ds generalizing seen l with
  | nil =>
    rw [processGo_nil] at h
    rw [← (Except.ok.injEq _ _).mp h]
    simp
  | cons d tl ih =>
    cases hd : d.date with
    | invalid =>
      rw [processGo_cons_invalid ms seen d tl hd] at h
      exact absurd h (by simp)
    | valid t =>
      rw [processGo_cons_valid ms seen d tl t hd] at h
      cases hrec : processGo ms
          (fingerprintParts (isoDayOfDays (Int.fdiv t 86400000)) d.amount d.donorName d.description
            :: seen) tl with
      | error e =>
        rw [hrec] at h
        exact absurd h (by simp)
      | ok rest =>
        rw [hrec] at h
        rw [← (Except.ok.injEq _ _).mp h]
        intro p hp
        rcases List.mem_cons.mp hp with h1 | h1
        · exact ⟨d, List.mem_cons_self d tl, by rw [h1]⟩
        · obtain ⟨d', hd', he⟩ := ih _ _ hrec p h1
          exact ⟨d', List.mem_cons_of_mem d hd', he⟩

end Igrejas
